import Mathlib

/-!
# Local execution pipeline of the CircleCI command line tool

A shallow embedding of `local/local.go` (package `local`) and of the library
routines it calls, followed by theorems about the embedded functions.

* A Go string is a sequence of bytes.  Where the code holds a Go string that
  is valid UTF-8 by construction (a command line token, a regexp match, a
  string decoded by `json.Unmarshal`, a string literal) it is embedded as
  `String`, that is as Unicode text, and inspected through its character list
  `String.data`; all characters the embedded code tests for (`-`, `=`, `c`,
  `h`, the double quote, the backslash, hex digits) are ASCII, so indexing by
  byte in Go and by character here select the same positions.  Where the code
  takes any Go string, the argument of `storeBuildAgentSha` that
  `json.Marshal` encodes, it is embedded as `GoString`, its bytes; `utf8Bytes`
  gives the bytes of a text.
* The library routines are embedded for the arguments `local.go` passes to
  them: `FlagSet.Parse` of pflag (as of its release 1.0.5) for a flag set with
  the single string flag `config`/`c`; `json.Marshal` and `json.Unmarshal` of
  encoding/json (as of Go 1.12) for the struct `buildAgentSettings`;
  `FindString` of regexp for the pattern `(?m)sha256:[0-9a-f]+`.
* The file system, the container runtime and the config service are
  embedded as a host: the answers of the collaborators, the settings file, and
  the trace of the actions performed.  Every function that acts on the host
  takes a host and returns its result together with the host afterwards.
* A loop whose bound is not structural takes fuel; the result `none` means
  the fuel ran out.  `extractConfigPath_some` shows that the argument parse
  always finishes.
-/

namespace CircleCI

deriving instance DecidableEq for Except

/-! ## Go strings as bytes (`unicode/utf8`) -/

/-- The double quote character. -/
def dquote : Char := Char.ofNat 34

/-- The backslash character. -/
def backslash : Char := Char.ofNat 92

/-- The lowercase hexadecimal digit of `n < 16` (the table `hex` of
encoding/json, `lowerhex` of strconv). -/
def hexDigit (n : Nat) : Char :=
  if n < 10 then Char.ofNat (48 + n) else Char.ofNat (87 + n)

/-- A Go string as its bytes, each a natural number below 256. -/
abbrev GoString := List Nat

/-- Function `utf8.EncodeRune`: the bytes of a rune.  The shifts and masks
of the code are written as divisions and remainders. -/
def utf8EncodeRune (c : Char) : List Nat :=
  if c.toNat < 0x80 then [c.toNat]
  else if c.toNat < 0x800 then [0xc0 + c.toNat / 64, 0x80 + c.toNat % 64]
  else if c.toNat < 0x10000 then
    [0xe0 + c.toNat / 4096, 0x80 + c.toNat / 64 % 64, 0x80 + c.toNat % 64]
  else
    [0xf0 + c.toNat / 262144, 0x80 + c.toNat / 4096 % 64, 0x80 + c.toNat / 64 % 64,
      0x80 + c.toNat % 64]

/-- The Go string that holds a text: its UTF-8 encoding. -/
def utf8Bytes (s : String) : GoString := s.data.flatMap utf8EncodeRune

/-- The rune of the first byte of a character: the value `rune(s[0])` of a Go
string `s` that starts with the character.  For an ASCII character it is the
character. -/
def byteRune (c : Char) : Char := Char.ofNat ((utf8EncodeRune c).headD 0)

/-- Table `acceptRanges` of unicode/utf8, lower bound: the least second
byte allowed after the first byte `s0`. -/
def acceptLo (s0 : Nat) : Nat := if s0 = 0xe0 then 0xa0 else if s0 = 0xf0 then 0x90 else 0x80

/-- Table `acceptRanges` of unicode/utf8, upper bound: the greatest second
byte allowed after the first byte `s0`. -/
def acceptHi (s0 : Nat) : Nat := if s0 = 0xed then 0x9f else if s0 = 0xf4 then 0x8f else 0xbf

/-- A continuation byte: between `locb` and `hicb`. -/
def isCont (b : Nat) : Bool := 0x80 ≤ b ∧ b ≤ 0xbf

/-- Function `utf8.DecodeRuneInString`: the rune at the front of the bytes
and its width.  `none` stands for `RuneError` with width 1 (an invalid or
short encoding) or width 0 (no bytes). -/
def decodeRune (s : List Nat) : Option Char × Nat :=
  match s with
  | [] => (none, 0)
  | s0 :: t =>
    if s0 < 0x80 then (some (Char.ofNat s0), 1)
    else if s0 < 0xc2 ∨ 0xf4 < s0 then (none, 1)
    else
      match t with
      | [] => (none, 1)
      | s1 :: t1 =>
        if s1 < acceptLo s0 ∨ acceptHi s0 < s1 then (none, 1)
        else if s0 < 0xe0 then (some (Char.ofNat (s0 % 32 * 64 + s1 % 64)), 2)
        else
          match t1 with
          | [] => (none, 1)
          | s2 :: t2 =>
            if isCont s2 = false then (none, 1)
            else if s0 < 0xf0 then
              (some (Char.ofNat (s0 % 16 * 4096 + s1 % 64 * 64 + s2 % 64)), 3)
            else
              match t2 with
              | [] => (none, 1)
              | s3 :: _ =>
                if isCont s3 = false then (none, 1)
                else
                  (some (Char.ofNat
                    (s0 % 8 * 262144 + s1 % 64 * 4096 + s2 % 64 * 64 + s3 % 64)), 4)

/-! ## Argument splitting: `extractConfigPath` and `pflag.FlagSet.Parse` -/

/-- Constant `DefaultConfigPath` of local.go. -/
def DefaultConfigPath : String := ".circleci/config.yml"

/-- The errors `FlagSet.Parse` of the pflag library can return for a flag set
whose only flag is the string flag `config` with shorthand `c`.  Each
constructor keeps the values the library formats into the message. -/
inductive ParseError where
  /-- Message `bad flag syntax: %s`. -/
  | badFlag (s : String)
  /-- Message `unknown flag: --%s`. -/
  | unknownFlag (name : String)
  /-- Message `unknown shorthand flag: %q in -%s`; `c` is the rune of the
  byte `shorthands[0]`. -/
  | unknownShorthand (c : Char) (shorthands : String)
  /-- Message `flag needs an argument: %s`. -/
  | needsArgument (s : String)
  /-- Message `flag needs an argument: %q in -%s`. -/
  | needsArgumentShort (c : Char) (shorthands : String)
  /-- The value `pflag.ErrHelp`. -/
  | errHelp
  deriving DecidableEq, Repr

/-- The verb `%q` of fmt applied to a byte, given as the rune `c` of the byte
(at most U+00FF): `strconv.QuoteRune`.  The single quote and the backslash
get a backslash; a printable rune (U+0020 to U+007E, U+00A1 to U+00FF but for
the soft hyphen U+00AD) is copied; the control characters with a name get
their letter; other runes below U+0020 and U+007F get the form `\xXX`, the
remaining ones the form `\u00XX`.  Runes above U+00FF, which no byte gives,
are copied. -/
def quoteRune (c : Char) : String :=
  let n := c.toNat
  let body : List Char :=
    if n = 39 ∨ n = 92 then [backslash, c]
    else if (0x20 ≤ n ∧ n ≤ 0x7e) ∨ (0xa1 ≤ n ∧ n ≤ 0xff ∧ n ≠ 0xad) then [c]
    else if n = 7 then [backslash, 'a']
    else if n = 8 then [backslash, 'b']
    else if n = 12 then [backslash, 'f']
    else if n = 10 then [backslash, 'n']
    else if n = 13 then [backslash, 'r']
    else if n = 9 then [backslash, 't']
    else if n = 11 then [backslash, 'v']
    else if n < 0x20 ∨ n = 0x7f then [backslash, 'x', hexDigit (n / 16), hexDigit (n % 16)]
    else if n ≤ 0xff then [backslash, 'u', '0', '0', hexDigit (n / 16), hexDigit (n % 16)]
    else [c]
  ⟨Char.ofNat 39 :: (body ++ [Char.ofNat 39])⟩

/-- Method `Error()` of the error value returned by `FlagSet.Parse`. -/
def ParseError.Error : ParseError → String
  | .badFlag s => "bad flag syntax: " ++ s
  | .unknownFlag name => "unknown flag: --" ++ name
  | .unknownShorthand c sh => "unknown shorthand flag: " ++ quoteRune c ++ " in -" ++ sh
  | .needsArgument s => "flag needs an argument: " ++ s
  | .needsArgumentShort c sh => "flag needs an argument: " ++ quoteRune c ++ " in -" ++ sh
  | .errHelp => "pflag: help requested"

/-- The part of a `pflag.FlagSet` that `Parse` changes: the variable bound
to the `config` flag by `StringVarP`, and the non-flag arguments `f.args`. -/
structure FlagSet where
  configFilename : String
  args : List String
  deriving DecidableEq, Repr

/-- Method `Set` for the `config` flag: a string value accepts every input. -/
def FlagSet.set (f : FlagSet) (value : String) : FlagSet :=
  { f with configFilename := value }

/-- Call `strings.SplitN(name, "=", 2)`: the text before the first `=`, and
the text after it when there is one. -/
def splitEq : List Char → List Char × Option (List Char)
  | [] => ([], none)
  | c :: cs =>
    if c = '=' then ([], some cs)
    else ((c :: (splitEq cs).1), (splitEq cs).2)

/-- Function `parseLongArg` of pflag, for the flag set of `extractConfigPath`:
`formal` holds the single name `config`, no flag has a `NoOptDefVal`, and
`ParseErrorsWhitelist.UnknownFlags` keeps its zero value `false`.  Returns the
arguments still to be parsed and the updated flag set. -/
def parseLongArg (s : String) (a : List String) (f : FlagSet) :
    Except ParseError (List String × FlagSet) :=
  let name := s.data.drop 2
  match name with
  | [] => .error (.badFlag s)
  | c :: _ =>
    if c = '-' ∨ c = '=' then .error (.badFlag s)
    else
      let split := splitEq name
      if split.1 = "config".data then
        match split.2 with
        | some value => .ok (a, f.set ⟨value⟩)
        | none =>
          match a with
          | value :: b => .ok (b, f.set value)
          | [] => .error (.needsArgument s)
      else if split.1 = "help".data then .error .errHelp
      else .error (.unknownFlag ⟨split.1⟩)

/-- Function `parseSingleShortArg` of pflag for the same flag set: the only
shorthand is `c`.  Returns the shorthand letters still to be parsed, the
arguments still to be parsed and the updated flag set.  The loop of
`parseShortArg` never passes the empty string (Go would fail on the index
there); that case returns its input.  The letter `c := shorthands[0]` is a
byte; it is tested here as a character, which equals `c` or `h` exactly when
its first byte does, and the errors carry the rune of that byte. -/
def parseSingleShortArg (shorthands : List Char) (args : List String) (f : FlagSet) :
    Except ParseError (List Char × List String × FlagSet) :=
  if "test.".data.isPrefixOf shorthands then .ok ([], args, f)
  else
    match shorthands with
    | [] => .ok ([], args, f)
    | c :: outShorts =>
      if c = 'c' then
        match outShorts with
        | [] =>
          match args with
          | value :: outArgs => .ok ([], outArgs, f.set value)
          | [] => .error (.needsArgumentShort (byteRune c) ⟨shorthands⟩)
        | [_] => .ok ([], args, f.set ⟨outShorts⟩)
        | e :: v :: vs =>
          if e = '=' then .ok ([], args, f.set ⟨v :: vs⟩)
          else .ok ([], args, f.set ⟨outShorts⟩)
      else if c = 'h' then .error .errHelp
      else .error (.unknownShorthand (byteRune c) ⟨shorthands⟩)

/-- The loop of `parseShortArg`: `for len(shorthands) > 0`, every round
starting again from the arguments `args` that follow the token.  `none`
means the fuel ran out before the loop ended. -/
def parseShortLoop : Nat → List Char → List String → List String → FlagSet →
    Option (Except ParseError (List String × FlagSet))
  | _, [], a, _, f => some (.ok (a, f))
  | 0, _ :: _, _, _, _ => none
  | n + 1, c :: cs, _, args, f =>
    match parseSingleShortArg (c :: cs) args f with
    | .error e => some (.error e)
    | .ok (shorthands, a, f1) => parseShortLoop n shorthands a args f1

/-- Function `parseShortArg` of pflag: the letters after the leading dash. -/
def parseShortArg (s : String) (args : List String) (f : FlagSet) :
    Option (Except ParseError (List String × FlagSet)) :=
  parseShortLoop (s.data.drop 1).length (s.data.drop 1) args args f

/-- The test `len(s) == 0 || s[0] != '-' || len(s) == 1` of `parseArgs`:
the token is not a flag. -/
def isNonFlag (s : String) : Bool :=
  match s.data with
  | [] => true
  | [_] => true
  | c :: _ :: _ => c != '-'

/-- Function `parseArgs` of pflag with `interspersed` set (the default of
`NewFlagSet`).  `none` means the fuel ran out before the loop ended. -/
def parseArgs : Nat → List String → FlagSet → Option (Except ParseError FlagSet)
  | _, [], f => some (.ok f)
  | 0, _ :: _, _ => none
  | n + 1, s :: args, f =>
    if isNonFlag s then parseArgs n args { f with args := f.args ++ [s] }
    else if (s.data.drop 1).head? = some '-' then
      if s.data.length = 2 then some (.ok { f with args := f.args ++ args })
      else
        match parseLongArg s args f with
        | .error e => some (.error e)
        | .ok (rest, f1) => parseArgs n rest f1
    else
      match parseShortArg s args f with
      | none => none
      | some (.error e) => some (.error e)
      | some (.ok (rest, f1)) => parseArgs n rest f1

/-- Method `Parse` of pflag with `ContinueOnError`: `f.args` is emptied and
the arguments are parsed; every round of `parseArgs` removes a token, so the
number of tokens is enough fuel. -/
def FlagSet.Parse (f : FlagSet) (arguments : List String) : Option (Except ParseError FlagSet) :=
  parseArgs arguments.length arguments { f with args := [] }

/-- Struct `processedArgs` of local.go. -/
structure processedArgs where
  args : List String
  configPath : String
  deriving DecidableEq, Repr

/-- Function `extractConfigPath` of local.go: a fresh flag set with the
single flag `--config`/`-c` whose default is `DefaultConfigPath`, parsed over
`args`.  `none` would mean that the parse did not finish. -/
def extractConfigPath (args : List String) : Option (Except ParseError processedArgs) :=
  let flagSet : FlagSet := { configFilename := DefaultConfigPath, args := [] }
  match flagSet.Parse args with
  | none => none
  | some (.error err) => some (.error err)
  | some (.ok fs) => some (.ok { configPath := fs.configFilename, args := fs.args })

/-! ## The digest cache record and its JSON form (`encoding/json`) -/

/-- Struct `buildAgentSettings` of local.go as `json.Unmarshal` fills it: the
decoder writes valid UTF-8 only, so the field is a text. -/
structure buildAgentSettings where
  LatestSha256 : String
  deriving DecidableEq, Repr

/-- One character of a Go string as `json.Marshal` writes it inside a JSON
string (HTML escaping on, the default of `Marshal`): the quote and the
backslash get a backslash, newline, carriage return and tab their short
escape, other control characters and `<`, `>`, `&` the form `\u00XX`,
U+2028 and U+2029 the form `\u202X`; every other character is copied. -/
def encodeChar (c : Char) : List Char :=
  if c = dquote ∨ c = backslash then [backslash, c]
  else if c = '\n' then [backslash, 'n']
  else if c = '\r' then [backslash, 'r']
  else if c = '\t' then [backslash, 't']
  else if c.toNat < 32 ∨ c = '<' ∨ c = '>' ∨ c = '&' then
    [backslash, 'u', '0', '0', hexDigit (c.toNat / 16), hexDigit (c.toNat % 16)]
  else if c.toNat = 0x2028 ∨ c.toNat = 0x2029 then
    [backslash, 'u', '2', '0', '2', hexDigit (c.toNat % 16)]
  else [c]

/-- One round of the loop of the string encoder of `json.Marshal` on the
bytes still to be written: the characters written and the number of bytes
read.  A byte that `utf8.DecodeRuneInString` does not accept is written as
the escape `\ufffd` of the replacement character, and one byte is read. -/
def encodeStep (s : List Nat) : List Char × Nat :=
  match decodeRune s with
  | (some c, size) => (encodeChar c, size)
  | (none, _) => ([backslash, 'u', 'f', 'f', 'f', 'd'], 1)

/-- The loop of the string encoder of `json.Marshal` over the bytes of a Go
string; `skip` is the number of bytes at the front that the last round
has read already. -/
def encodeFrom : Nat → List Nat → List Char
  | _, [] => []
  | skip + 1, _ :: bs => encodeFrom skip bs
  | 0, b :: bs => (encodeStep (b :: bs)).1 ++ encodeFrom ((encodeStep (b :: bs)).2 - 1) bs

/-- The JSON string literal `json.Marshal` writes for a Go string. -/
def encodeString (s : GoString) : List Char :=
  dquote :: (encodeFrom 0 s ++ [dquote])

/-- Call `json.Marshal(settings)` for
`settings := buildAgentSettings{LatestSha256: sha256}`, where `sha256` is any
Go string: one object with the key `LatestSha256`.  It cannot fail for this
type, and what it writes is valid UTF-8, a text. -/
def marshalRecord (sha256 : GoString) : String :=
  ⟨'\x7b' :: dquote :: ("LatestSha256".data ++ dquote :: ':' ::
    (encodeString sha256 ++ ['\x7d']))⟩

/-- Call `json.Marshal(settings)` for a record whose field is a text. -/
def marshalSettings (v : buildAgentSettings) : String :=
  marshalRecord (utf8Bytes v.LatestSha256)

/-- A parsed JSON value. -/
inductive JValue where
  | null
  | bool (b : Bool)
  | number (text : String)
  | str (s : String)
  | arr (elems : List JValue)
  | obj (members : List (String × JValue))
  deriving Repr

/-- Function `isSpace` of the JSON scanner. -/
def isSpaceJSON (c : Char) : Bool := c = ' ' ∨ c = '\t' ∨ c = '\r' ∨ c = '\n'

/-- The input without its leading JSON white space. -/
def skipSpace : List Char → List Char
  | [] => []
  | c :: cs => if isSpaceJSON c then skipSpace cs else c :: cs

/-- The value of a hexadecimal digit of either case. -/
def hexVal (c : Char) : Option Nat :=
  if 48 ≤ c.toNat ∧ c.toNat ≤ 57 then some (c.toNat - 48)
  else if 97 ≤ c.toNat ∧ c.toNat ≤ 102 then some (c.toNat - 87)
  else if 65 ≤ c.toNat ∧ c.toNat ≤ 70 then some (c.toNat - 55)
  else none

/-- Function `getu4`: the number written by four hexadecimal digits. -/
def getu4 (a b c d : Char) : Option Nat :=
  match hexVal a, hexVal b, hexVal c, hexVal d with
  | some x, some y, some z, some w => some (((x * 16 + y) * 16 + z) * 16 + w)
  | _, _, _, _ => none

/-- Function `utf16.IsSurrogate`. -/
def isSurrogate (r : Nat) : Bool := 0xd800 ≤ r ∧ r < 0xe000

/-- The rune `unicode.ReplacementChar`. -/
def replacementChar : Char := Char.ofNat 0xfffd

/-- Function `utf16.DecodeRune`, `none` standing for the replacement rune. -/
def decodeSurrogates (r1 r2 : Nat) : Option Char :=
  if 0xd800 ≤ r1 ∧ r1 < 0xdc00 ∧ 0xdc00 ≤ r2 ∧ r2 < 0xe000 then
    some (Char.ofNat ((r1 - 0xd800) * 1024 + (r2 - 0xdc00) + 0x10000))
  else none

/-- The rune `utf16.DecodeRune(rr, getu4(rest))` of a surrogate pair whose
second half is the escape at the front of `rest`, when there is one. -/
def decodePair (rr : Nat) (rest : List Char) : Option Char :=
  match rest with
  | b1 :: u1 :: a2 :: b2 :: c2 :: d2 :: _ =>
    if b1 = backslash ∧ u1 = 'u' then
      match getu4 a2 b2 c2 d2 with
      | some rr1 => decodeSurrogates rr rr1
      | none => none
    else none
  | _ => none

/-- The character a one-letter escape stands for; `none` for a letter the
scanner rejects. -/
def unescape (e : Char) : Option Char :=
  if e = dquote ∨ e = backslash ∨ e = '/' then some e
  else if e = 'b' then some (Char.ofNat 8)
  else if e = 'f' then some (Char.ofNat 12)
  else if e = 'n' then some '\n'
  else if e = 'r' then some '\r'
  else if e = 't' then some '\t'
  else none

/-- One round of the scanner states of a string together with `unquote`, on
the input inside a string literal: `none` for invalid text (the end of the
input, a bad escape, a raw control character); otherwise the input after the
round and the character read, or no character when the round read the
closing quote.  A `\u` escape that is a surrogate is read together with the
escape after it when the two form a pair, and alone, as the replacement
character, when they do not. -/
def unquoteStep (input : List Char) : Option (Option Char × List Char) :=
  match input with
  | [] => none
  | c :: cs =>
    if c = dquote then some (none, cs)
    else if c = backslash then
      match cs with
      | [] => none
      | e :: es =>
        if e = 'u' then
          match es with
          | a :: b :: x :: d :: rest =>
            match getu4 a b x d with
            | none => none
            | some rr =>
              if isSurrogate rr then
                match decodePair rr rest with
                | some dec => some (some dec, rest.drop 6)
                | none => some (some replacementChar, rest)
              else some (some (Char.ofNat rr), rest)
          | _ => none
        else
          match unescape e with
          | none => none
          | some x => some (some x, es)
    else if c.toNat < 32 then none
    else some (some c, cs)

/-- The rounds of `unquoteStep` up to the closing quote: the decoded text
and the input after the closing quote.  Each round uses one unit of fuel and
reads at least one character. -/
def unquoteLoop : Nat → List Char → Option (List Char × List Char)
  | 0, _ => none
  | n + 1, input =>
    match unquoteStep input with
    | none => none
    | some (none, rest) => some ([], rest)
    | some (some c, rest) => (unquoteLoop n rest).map fun p => (c :: p.1, p.2)

/-- A string literal whose opening quote has been read: the decoded text and
the input after the closing quote, `none` for invalid text. -/
def unquoteBody (input : List Char) : Option (List Char × List Char) :=
  unquoteLoop (input.length + 1) input

/-- A decimal digit. -/
def isDigit (c : Char) : Bool := 48 ≤ c.toNat ∧ c.toNat ≤ 57

/-- The digits at the front of the input, at least one. -/
def scanDigits (input : List Char) : Option (List Char × List Char) :=
  match input.takeWhile isDigit with
  | [] => none
  | ds => some (ds, input.dropWhile isDigit)

/-- The integer part of a JSON number: `0`, or a digit from 1 to 9 followed
by digits. -/
def scanInt (input : List Char) : Option (List Char × List Char) :=
  match input with
  | [] => none
  | c :: cs =>
    if c = '0' then some ([c], cs)
    else if isDigit c then some (c :: cs.takeWhile isDigit, cs.dropWhile isDigit)
    else none

/-- The optional fraction of a JSON number. -/
def scanFrac (input : List Char) : Option (List Char × List Char) :=
  match input with
  | '.' :: cs => (scanDigits cs).map fun p => ('.' :: p.1, p.2)
  | _ => some ([], input)

/-- The optional exponent of a JSON number. -/
def scanExp (input : List Char) : Option (List Char × List Char) :=
  match input with
  | [] => some ([], [])
  | e :: cs =>
    if e = 'e' ∨ e = 'E' then
      match cs with
      | [] => none
      | s :: ds =>
        if s = '+' ∨ s = '-' then (scanDigits ds).map fun p => (e :: s :: p.1, p.2)
        else (scanDigits cs).map fun p => (e :: p.1, p.2)
    else some ([], input)

/-- A JSON number at the front of the input: its text and what follows. -/
def scanNumber (input : List Char) : Option (List Char × List Char) :=
  let signed : List Char × List Char :=
    match input with
    | '-' :: cs => (['-'], cs)
    | _ => ([], input)
  match scanInt signed.2 with
  | none => none
  | some (i, r1) =>
    match scanFrac r1 with
    | none => none
    | some (f, r2) =>
      match scanExp r2 with
      | none => none
      | some (e, r3) => some (signed.1 ++ i ++ f ++ e, r3)

/-- One of the words `true`, `false`, `null` at the front of the input. -/
def scanLiteral (word : List Char) (v : JValue) (input : List Char) :
    Option (JValue × List Char) :=
  if word.isPrefixOf input then some (v, input.drop word.length) else none

mutual
/-- A JSON value at the front of the input (which has no leading space): the
value and the input after it.  Every call uses one unit of fuel and reads at
least one character. -/
def parseValue : Nat → List Char → Option (JValue × List Char)
  | 0, _ => none
  | _ + 1, [] => none
  | n + 1, c :: cs =>
    if c = '\x7b' then
      match skipSpace cs with
      | [] => none
      | d :: ds =>
        if d = '\x7d' then some (.obj [], ds)
        else (parseMembers n (d :: ds)).map fun p => (.obj p.1, p.2)
    else if c = '[' then
      match skipSpace cs with
      | [] => none
      | d :: ds =>
        if d = ']' then some (.arr [], ds)
        else (parseElements n (d :: ds)).map fun p => (.arr p.1, p.2)
    else if c = dquote then (unquoteBody cs).map fun p => (.str ⟨p.1⟩, p.2)
    else if c = 't' then scanLiteral "true".data (.bool true) (c :: cs)
    else if c = 'f' then scanLiteral "false".data (.bool false) (c :: cs)
    else if c = 'n' then scanLiteral "null".data .null (c :: cs)
    else (scanNumber (c :: cs)).map fun p => (.number ⟨p.1⟩, p.2)
/-- The members of an object after its opening brace, up to and including
the closing brace. -/
def parseMembers : Nat → List Char → Option (List (String × JValue) × List Char)
  | 0, _ => none
  | _ + 1, [] => none
  | n + 1, c :: cs =>
    if c = dquote then
      match unquoteBody cs with
      | none => none
      | some (key, r1) =>
        match skipSpace r1 with
        | [] => none
        | d :: ds =>
          if d = ':' then
            match parseValue n (skipSpace ds) with
            | none => none
            | some (v, r2) =>
              match skipSpace r2 with
              | [] => none
              | e :: es =>
                if e = ',' then
                  (parseMembers n (skipSpace es)).map fun p => ((⟨key⟩, v) :: p.1, p.2)
                else if e = '\x7d' then some ([(⟨key⟩, v)], es)
                else none
          else none
    else none
/-- The elements of an array after its opening bracket, up to and including
the closing bracket. -/
def parseElements : Nat → List Char → Option (List JValue × List Char)
  | 0, _ => none
  | n + 1, input =>
    match parseValue n input with
    | none => none
    | some (v, r1) =>
      match skipSpace r1 with
      | [] => none
      | e :: es =>
        if e = ',' then (parseElements n (skipSpace es)).map fun p => (v :: p.1, p.2)
        else if e = ']' then some ([v], es)
        else none
end

/-- Function `checkValid` with the parse: the whole text is one JSON value
between optional white space.  The fuel is more than the number of
characters. -/
def parseJSON (data : List Char) : Option JValue :=
  match parseValue (data.length + 1) (skipSpace data) with
  | none => none
  | some (v, rest) => if skipSpace rest = [] then some v else none

/-- The byte operation `b & caseMask` on a character code below 128: bit 5
cleared. -/
def clearCaseBit (n : Nat) : Nat := if (n / 32) % 2 = 1 then n - 32 else n

/-- Function `equalFoldRight` of encoding/json, the key comparison chosen by
`foldFunc` for a field name that is all ASCII and holds an `s`: letters
match without regard to case, and an `s` or `k` of the name also matches the
long s (U+017F) or the Kelvin sign (U+212A) of the key. -/
def equalFoldRight : List Char → List Char → Bool
  | [], t => t.isEmpty
  | _ :: _, [] => false
  | sb :: s, tb :: t =>
    if tb.toNat < 128 then
      if sb = tb then equalFoldRight s t
      else if 65 ≤ clearCaseBit sb.toNat ∧ clearCaseBit sb.toNat ≤ 90
          ∧ clearCaseBit sb.toNat = clearCaseBit tb.toNat then equalFoldRight s t
      else false
    else if (sb = 's' ∨ sb = 'S') ∧ tb.toNat = 0x17f then equalFoldRight s t
    else if (sb = 'k' ∨ sb = 'K') ∧ tb.toNat = 0x212a then equalFoldRight s t
    else false

/-! ## Errors, the host and its trace -/

/-- A Go `error` value of the pipeline. -/
inductive Failure where
  /-- An error returned by `FlagSet.Parse`. -/
  | parse (e : ParseError)
  /-- An error made by `errors.New` or `fmt.Errorf` from a fixed text. -/
  | text (msg : String)
  /-- The error `fmt.Errorf("config errors %v", configResponse.Errors)`. -/
  | configErrors (errors : List String)
  /-- An error reported by a collaborator: the operating system, the
  config service, the container runtime. -/
  | external (msg : String)
  /-- An unmarshal error of encoding/json: a syntax error, or a value of the
  named JSON kind given for the string field. -/
  | json (kind : String)
  /-- The error `errors.Wrap(cause, msg)`. -/
  | wrap (cause : Failure) (msg : String)
  deriving DecidableEq, Repr

/-- What a call can end with: a value, a returned error, or a panic. -/
inductive Result (α : Type) where
  | ok (val : α)
  | fail (err : Failure)
  | panicked (val : Failure)
  deriving DecidableEq, Repr

/-- The settings file `build_agent_settings.json` as `os.Stat` and
`ioutil.ReadFile` see it. -/
inductive File where
  /-- `os.Stat` reports that the file does not exist. -/
  | missing
  /-- `ioutil.ReadFile` fails with the given error. -/
  | unreadable (err : Failure)
  /-- `ioutil.ReadFile` returns the given text. -/
  | content (data : String)
  deriving DecidableEq, Repr

/-- The observable actions of the pipeline, in the order they happen.  The
entries `refresh` and `store` mark the entry into `findLatestPicardSha` and
`storeBuildAgentSha`. -/
inductive Event where
  | configQuery (configPath : String)
  | dockerVersion
  | dockerPull (repo : String)
  | createTemp (name : String)
  | writeTemp (name : String) (data : String)
  | mkdirAll (dir : String)
  | writeFile (data : String)
  | stdout (text : String)
  | warn (text : String) (cause : Failure)
  | debugArgs (arguments : List String)
  | refresh
  | store (sha256 : GoString)
  | exec (path : String) (argv : List String) (env : List String)
  deriving DecidableEq, Repr

/-- Struct `settings.Config`, the fields `Execute` reads. -/
structure Config where
  Host : String
  Endpoint : String
  Token : String
  Debug : Bool
  deriving DecidableEq, Repr

/-- The response of `api.ConfigQuery`, the fields `Execute` reads. -/
structure ConfigResponse where
  Valid : Bool
  OutputYaml : String
  Errors : List String
  deriving DecidableEq, Repr

/-- The answers of the collaborators of the pipeline.  They do not change
during one run. -/
structure Env where
  /-- The value of `circleCiDir()`, which joins `settings.UserHomeDir()` (a
  function outside this package) and `.circleci`. -/
  circleCiDir : String
  /-- Result of `exec.LookPath("docker")`: the path of the executable. -/
  lookPathDocker : Except Failure String
  /-- Whether `docker version` exits with status zero. -/
  dockerVersionOk : Bool
  /-- Combined output of `docker pull`. -/
  pullOutput : String
  /-- Error of `docker pull`, if any. -/
  pullErr : Option Failure
  /-- Error of `os.MkdirAll(circleCiDir(), 0700)`, if any. -/
  mkdirAllErr : Option Failure
  /-- Error of `ioutil.WriteFile` on the settings file, if any. -/
  writeFileErr : Option Failure
  /-- Error of a write to standard error, if any. -/
  stderrErr : Option Failure
  /-- Result of `api.ConfigQuery` for a client and a config path. -/
  configQuery : Config → String → Except Failure ConfigResponse
  /-- Result of `os.Getwd`. -/
  getwd : Except Failure String
  /-- Result of `ioutil.TempFile("/tmp", "*-config.yml")`: the file name. -/
  tempFile : Except Failure String
  /-- Error of `f.WriteString` on the temporary file, if any. -/
  writeStringErr : Option Failure
  /-- Value of `os.Environ()`. -/
  environ : List String
  /-- Error of `syscall.Exec`, if any; without one the process is replaced. -/
  execErr : Option Failure

/-- The machine the pipeline runs on: the answers of the collaborators, the
settings file at `buildAgentSettingsPath()`, and the trace of the actions
performed so far. -/
structure Host where
  env : Env
  settingsFile : File
  trace : List Event

/-- The host after one more action. -/
def Host.log (h : Host) (e : Event) : Host := { h with trace := h.trace ++ [e] }

/-! ## The text scan of `findLatestPicardSha` (`regexp`) -/

/-- The class `[0-9a-f]`. -/
def isLowerHex (c : Char) : Bool :=
  (48 ≤ c.toNat ∧ c.toNat ≤ 57) ∨ (97 ≤ c.toNat ∧ c.toNat ≤ 102)

/-- A match of `sha256:[0-9a-f]+` that starts at the front of the input:
the text `sha256:` and the longest run of hex digits after it, at least one. -/
def matchSha : List Char → Option (List Char)
  | 's' :: 'h' :: 'a' :: '2' :: '5' :: '6' :: ':' :: rest =>
    match rest.takeWhile isLowerHex with
    | [] => none
    | d :: ds => some ('s' :: 'h' :: 'a' :: '2' :: '5' :: '6' :: ':' :: d :: ds)
  | _ => none

/-- Call `regexp.MustCompile("(?m)sha256:[0-9a-f]+").FindString`: the
leftmost match, or the empty text when there is none. -/
def findSha : List Char → List Char
  | [] => []
  | c :: cs =>
    match matchSha (c :: cs) with
    | some m => m
    | none => findSha cs

/-! ## The digest cache store -/

/-- What `json.Unmarshal` stores into the field `LatestSha256` for one member
of the object, and the first type error so far.  A key matches the field
when it is equal to its name or equal under `equalFoldRight`; a string value
is stored, `null` leaves the field as it is, any other value is an
`UnmarshalTypeError`; members with other keys are skipped. -/
def decodeMember (st : buildAgentSettings × Option Failure) (m : String × JValue) :
    buildAgentSettings × Option Failure :=
  if equalFoldRight "LatestSha256".data m.1.data then
    match m.2 with
    | .str s => ({ LatestSha256 := s }, st.2)
    | .null => st
    | .bool _ => (st.1, st.2.orElse fun _ => some (.json "bool"))
    | .number _ => (st.1, st.2.orElse fun _ => some (.json "number"))
    | .arr _ => (st.1, st.2.orElse fun _ => some (.json "array"))
    | .obj _ => (st.1, st.2.orElse fun _ => some (.json "object"))
  else st

/-- Call `json.Unmarshal(data, &settings)`: the struct after the call and the
error.  Invalid JSON leaves the struct as it was; an object fills the field
member by member; `null` changes nothing; any other value is an
`UnmarshalTypeError`. -/
def unmarshalSettings (data : String) (settings : buildAgentSettings) :
    buildAgentSettings × Option Failure :=
  match parseJSON data.data with
  | none => (settings, some (.json "syntax"))
  | some (.obj members) => members.foldl decodeMember (settings, none)
  | some .null => (settings, none)
  | some (.str _) => (settings, some (.json "string"))
  | some (.bool _) => (settings, some (.json "bool"))
  | some (.number _) => (settings, some (.json "number"))
  | some (.arr _) => (settings, some (.json "array"))

/-- Function `storeBuildAgentSha` of local.go; its argument is any Go
string.  A successful `ioutil.WriteFile` leaves a file that holds the written
text; a failed one leaves the file as it was. -/
def storeBuildAgentSha (sha256 : GoString) (h : Host) : Option Failure × Host :=
  let h0 := h.log (.store sha256)
  let settingsJSON := marshalRecord sha256
  let h1 := h0.log (.mkdirAll h.env.circleCiDir)
  match h.env.mkdirAllErr with
  | some err => (some (.wrap err "Could not create settings directory"), h1)
  | none =>
    let h2 := h1.log (.writeFile settingsJSON)
    match h.env.writeFileErr with
    | some err => (some (.wrap err "Failed to write build agent settings file"), h2)
    | none => (none, { h2 with settingsFile := .content settingsJSON })

/-- Function `loadCurrentBuildAgentSha` of local.go.  It returns a string;
it panics when the warning cannot be written to standard error. -/
def loadCurrentBuildAgentSha (h : Host) : Result String × Host :=
  match h.settingsFile with
  | .missing => (.ok "", h)
  | .unreadable err =>
    match h.env.stderrErr with
    | some er => (.panicked er, h)
    | none => (.ok "", h.log (.warn "Failed to load build agent settings JSON" err))
  | .content settingsJSON =>
    match unmarshalSettings settingsJSON { LatestSha256 := "" } with
    | (_, some err) =>
      match h.env.stderrErr with
      | some er => (.panicked er, h)
      | none => (.ok "", h.log (.warn "Failed to parse build agent settings JSON" err))
    | (settings, none) => (.ok settings.LatestSha256, h)

/-! ## The agent image resolver -/

/-- Variable `picardRepo` of local.go. -/
def picardRepo : String := "circleci/picard"

/-- Function `ensureDockerIsAvailable` of local.go. -/
def ensureDockerIsAvailable (h : Host) : Option Failure × Host :=
  match h.env.lookPathDocker with
  | .error _ =>
    (some (.text
      "could not find `docker` on the PATH; please ensure that docker is installed"), h)
  | .ok _ =>
    let h1 := h.log .dockerVersion
    if h.env.dockerVersionOk then (none, h1)
    else
      (some (.text ("failed to connect to docker; please ensure that docker is running, "
        ++ "and that `docker version` succeeds")), h1)

/-- Function `findLatestPicardSha` of local.go. -/
def findLatestPicardSha (h : Host) : Result String × Host :=
  let h0 := h.log .refresh
  match ensureDockerIsAvailable h0 with
  | (some err, h1) => (.fail err, h1)
  | (none, h1) =>
    let h2 := h1.log (.dockerPull picardRepo)
    match h.env.pullErr with
    | some err => (.fail (.wrap err "failed to pull latest docker image"), h2)
    | none =>
      let output := h.env.pullOutput
      let latest : String := ⟨findSha output.data⟩
      if latest = "" then
        (.fail (.text "failed to parse sha256 from docker pull output"), h2)
      else
        match storeBuildAgentSha (utf8Bytes latest) h2 with
        | (some err, h3) => (.fail err, h3)
        | (none, h3) => (.ok latest, h3)

/-- Function `picardImage` of local.go. -/
def picardImage (h : Host) : Result String × Host :=
  match loadCurrentBuildAgentSha h with
  | (.panicked v, h1) => (.panicked v, h1)
  | (.fail err, h1) => (.fail err, h1)
  | (.ok sha, h1) =>
    if sha = "" then
      let h2 := h1.log (.stdout "Downloading latest CircleCI build agent...\n")
      match findLatestPicardSha h2 with
      | (.panicked v, h3) => (.panicked v, h3)
      | (.fail err, h3) => (.fail err, h3)
      | (.ok sha1, h3) =>
        (.ok (picardRepo ++ "@" ++ sha1),
          h3.log (.stdout ("Docker image digest: " ++ sha1 ++ "\n")))
    else
      (.ok (picardRepo ++ "@" ++ sha),
        h1.log (.stdout ("Docker image digest: " ++ sha ++ "\n")))

/-! ## The execution launcher -/

/-- Struct `BuildOptions` of local.go.  The callback `Help` returns an error
or nil and may act on the host. -/
structure BuildOptions where
  Cfg : Config
  Args : List String
  Help : Host → Option Failure × Host

/-- How a call of `Execute` ends. -/
inductive Outcome where
  /-- It returns the given error, or nil. -/
  | returned (err : Option Failure)
  /-- Call `syscall.Exec` succeeded: the process now is the container
  runtime and `Execute` never returns. -/
  | replaced
  /-- It panics. -/
  | panicked (val : Failure)
  /-- The argument parse ran out of fuel. -/
  | unfinished
  deriving DecidableEq, Repr

/-- The in-container path of the processed config, `configPathInsideContainer`
in `Execute`. -/
def configPathInsideContainer : String := "/tmp/local_build_config.yml"

/-- The slice `arguments` that `Execute` builds (local.go, lines 99 to 107):
`tmp` is `f.Name()`, `dir` is `circleCiDir()`. -/
def dockerArguments (tmp pwd dir image : String) (args : List String) : List String :=
  ["docker", "run", "--interactive", "--tty", "--rm",
    "--volume", "/var/run/docker.sock:/var/run/docker.sock",
    "--volume", tmp ++ ":" ++ configPathInsideContainer,
    "--volume", pwd ++ ":" ++ pwd,
    "--volume", dir ++ ":/root/.circleci",
    "--workdir", pwd,
    image, "circleci", "build", "--config", configPathInsideContainer] ++ args

/-- The loop at the head of `Execute`: some argument is `--help` or `-h`. -/
def helpRequested : List String → Bool
  | [] => false
  | f :: rest => if f = "--help" ∨ f = "-h" then true else helpRequested rest

/-- The last steps of `Execute`, from the debug print on. -/
def launch (opts : BuildOptions) (arguments : List String) (h : Host) : Outcome × Host :=
  let printed : Option Failure × Host :=
    if opts.Cfg.Debug then
      match h.env.stderrErr with
      | some err => (some err, h)
      | none => (none, h.log (.debugArgs arguments))
    else (none, h)
  match printed with
  | (some err, h1) => (.returned (some err), h1)
  | (none, h1) =>
    match h.env.lookPathDocker with
    | .error err =>
      (.returned (some (.wrap err
        "Could not find a `docker` executable on $PATH; please ensure that docker installed")),
        h1)
    | .ok dockerPath =>
      let h2 := h1.log (.exec dockerPath arguments h.env.environ)
      match h.env.execErr with
      | some err => (.returned (some (.wrap err "failed to execute docker")), h2)
      | none => (.replaced, h2)

/-- Function `Execute` of local.go. -/
def Execute (opts : BuildOptions) (h : Host) : Outcome × Host :=
  if helpRequested opts.Args then
    ((.returned (opts.Help h).1), (opts.Help h).2)
  else
    match extractConfigPath opts.Args with
    | none => (.unfinished, h)
    | some (.error err) => (.returned (some (.parse err)), h)
    | some (.ok processedArgs) =>
      let h1 := h.log (.configQuery processedArgs.configPath)
      match h.env.configQuery opts.Cfg processedArgs.configPath with
      | .error err => (.returned (some err), h1)
      | .ok configResponse =>
        if !configResponse.Valid then
          (.returned (some (.configErrors configResponse.Errors)), h1)
        else
          match h.env.getwd with
          | .error err => (.returned (some (.wrap err "Could not find pwd")), h1)
          | .ok pwd =>
            match ensureDockerIsAvailable h1 with
            | (some err, h2) => (.returned (some err), h2)
            | (none, h2) =>
              match h.env.tempFile with
              | .error err =>
                (.returned (some (.wrap err "Error creating temporary config file")), h2)
              | .ok name =>
                let h3 := h2.log (.createTemp name)
                let h4 := h3.log (.writeTemp name configResponse.OutputYaml)
                match h.env.writeStringErr with
                | some err =>
                  (.returned
                    (some (.wrap err "Error writing processed config to temporary file")), h4)
                | none =>
                  match picardImage h4 with
                  | (.panicked v, h5) => (.panicked v, h5)
                  | (.fail err, h5) =>
                    (.returned (some (.wrap err "Could not find picard image")), h5)
                  | (.ok image, h5) =>
                    launch opts
                      (dockerArguments name pwd h.env.circleCiDir image processedArgs.args) h5

/-! ## Counting actions, white space, and hosts for the examples -/

/-- The number of entries into `findLatestPicardSha` in the trace. -/
def refreshes (h : Host) : Nat :=
  h.trace.countP fun e => match e with
    | .refresh => true
    | _ => false

/-- The number of runs of `docker pull` in the trace. -/
def pulls (h : Host) : Nat :=
  h.trace.countP fun e => match e with
    | .dockerPull _ => true
    | _ => false

/-- The number of entries into `storeBuildAgentSha` in the trace. -/
def stores (h : Host) : Nat :=
  h.trace.countP fun e => match e with
    | .store _ => true
    | _ => false

/-- The host on which `findLatestPicardSha` runs `docker pull`: after the
entry, the version probe and the pull. -/
def afterPull (h : Host) : Host :=
  ((h.log .refresh).log .dockerVersion).log (.dockerPull picardRepo)

/-- The text holds `sha256:` followed by at least one lowercase hexadecimal
digit. -/
def hasDigest (s : List Char) : Prop :=
  ∃ pre d post, s = pre ++ "sha256:".data ++ d :: post ∧ isLowerHex d = true

/-- The host on which `Execute` calls `picardImage`: after the config
query, the version probe and the write of the temporary file. -/
def beforeImage (h : Host) (configPath name yaml : String) : Host :=
  (((h.log (.configQuery configPath)).log .dockerVersion).log (.createTemp name)).log
    (.writeTemp name yaml)

/-- The message `picardImage` prints last. -/
def digestLine (d : String) : Event := .stdout ("Docker image digest: " ++ d ++ "\n")

/-- The host on which `picardImage` starts a refresh. -/
def beforeRefresh (h : Host) : Host :=
  (loadCurrentBuildAgentSha h).2.log (.stdout "Downloading latest CircleCI build agent...\n")

/-- A white space character: the Unicode property `White_Space`, which is
what `unicode.IsSpace` of Go tests. -/
def isSpace (c : Char) : Bool :=
  (9 ≤ c.toNat ∧ c.toNat ≤ 13) ∨ c.toNat = 32 ∨ c.toNat = 0x85 ∨ c.toNat = 0xa0
    ∨ c.toNat = 0x1680 ∨ (0x2000 ≤ c.toNat ∧ c.toNat ≤ 0x200a) ∨ c.toNat = 0x2028
    ∨ c.toNat = 0x2029 ∨ c.toNat = 0x202f ∨ c.toNat = 0x205f ∨ c.toNat = 0x3000

/-- Answers of a machine on which every collaborator succeeds: docker is
installed and running, the pull prints `pullOutput`, the config is valid. -/
def exampleEnv (pullOutput : String) : Env :=
  { circleCiDir := "/home/dev/.circleci"
    lookPathDocker := .ok "/usr/bin/docker"
    dockerVersionOk := true
    pullOutput := pullOutput
    pullErr := none
    mkdirAllErr := none
    writeFileErr := none
    stderrErr := none
    configQuery := fun _ _ => .ok { Valid := true, OutputYaml := "version: 2", Errors := [] }
    getwd := .ok "/work"
    tempFile := .ok "/tmp/42-config.yml"
    writeStringErr := none
    environ := ["HOME=/home/dev"]
    execErr := none }

/-- A host with the answers of `exampleEnv`, the given settings file and an
empty trace. -/
def exampleHost (file : File) (pullOutput : String) : Host :=
  { env := exampleEnv pullOutput, settingsFile := file, trace := [] }

/-- A host on which `docker pull` fails, printing `pullOutput`. -/
def failedPullHost (pullOutput : String) : Host :=
  { env := { exampleEnv pullOutput with pullErr := some (.external "exit status 1") }
    settingsFile := .missing
    trace := [] }

/-- Options for the examples: the given arguments and a `Help` callback that
returns nil. -/
def exampleOptions (args : List String) : BuildOptions :=
  { Cfg := { Host := "https://circleci.com", Endpoint := "graphql-unstable", Token := "",
             Debug := false }
    Args := args
    Help := fun h => (none, h) }

/-! ## Theorems on argument splitting -/

theorem parseArgs_nil (n : Nat) (f : FlagSet) : parseArgs n [] f = some (.ok f) := by
  cases n <;> rfl

theorem parseArgs_nonFlag_cons (n : Nat) (s : String) (rest : List String) (f : FlagSet)
    (hs : isNonFlag s = true) :
    parseArgs (n + 1) (s :: rest) f = parseArgs n rest { f with args := f.args ++ [s] } := by
  simp [parseArgs, hs]

/-- Tokens that are not flags are moved to `f.args` one per round. -/
theorem parseArgs_nonFlag_append (pre : List String) (hpre : ∀ t ∈ pre, isNonFlag t = true) :
    ∀ (n : Nat) (rest : List String) (f : FlagSet),
      parseArgs (pre.length + n) (pre ++ rest) f
        = parseArgs n rest { f with args := f.args ++ pre } := by
  induction pre with
  | nil => intro n rest f; simp
  | cons s pre ih =>
    intro n rest f
    have hs : isNonFlag s = true := hpre s (List.mem_cons_self _ _)
    have hrest : ∀ t ∈ pre, isNonFlag t = true := fun t ht => hpre t (List.mem_cons_of_mem _ ht)
    have hlen : (s :: pre).length + n = (pre.length + n) + 1 := by simp; omega
    rw [hlen, List.cons_append, parseArgs_nonFlag_cons _ _ _ _ hs, ih hrest]
    simp

/-- A sequence of non-flag tokens is parsed with any fuel that is at least
its length. -/
theorem parseArgs_all_nonFlag (post : List String) (hpost : ∀ t ∈ post, isNonFlag t = true)
    (n : Nat) (hn : post.length ≤ n) (f : FlagSet) :
    parseArgs n post f = some (.ok { f with args := f.args ++ post }) := by
  obtain ⟨k, rfl⟩ : ∃ k, n = post.length + k := ⟨n - post.length, by omega⟩
  have h := parseArgs_nonFlag_append post hpost k [] f
  rw [List.append_nil] at h
  rw [h, parseArgs_nil]

theorem isNonFlag_of_head (t : String) (h : t.data.head? ≠ some '-') : isNonFlag t = true := by
  unfold isNonFlag
  match hd : t.data with
  | [] => rfl
  | [_] => rfl
  | c :: _ :: _ =>
    rw [hd] at h
    simpa using h

theorem string_mk_data (v : String) : (⟨v.data⟩ : String) = v := rfl

theorem parseArgs_long_next (n : Nat) (v : String) (post : List String) (f : FlagSet) :
    parseArgs (n + 1) ("--config" :: v :: post) f = parseArgs n post (f.set v) := by
  rfl

theorem parseArgs_short_next (n : Nat) (v : String) (post : List String) (f : FlagSet) :
    parseArgs (n + 1) ("-c" :: v :: post) f = parseArgs n post (f.set v) := by
  rfl

theorem parseArgs_long_missing (n : Nat) (f : FlagSet) :
    parseArgs (n + 1) ["--config"] f = some (.error (.needsArgument "--config")) := by
  rfl

theorem parseArgs_short_missing (n : Nat) (f : FlagSet) :
    parseArgs (n + 1) ["-c"] f = some (.error (.needsArgumentShort 'c' "c")) := by
  rfl

theorem splitEq_config (v : List Char) :
    splitEq ('c' :: 'o' :: 'n' :: 'f' :: 'i' :: 'g' :: '=' :: v) = ("config".data, some v) := by
  simp [splitEq]

theorem parseArgs_long_attached (n : Nat) (v : String) (post : List String) (f : FlagSet) :
    parseArgs (n + 1) (("--config=" ++ v) :: post) f = parseArgs n post (f.set v) := by
  have hd : ("--config=" ++ v).data
      = '-' :: '-' :: 'c' :: 'o' :: 'n' :: 'f' :: 'i' :: 'g' :: '=' :: v.data := by
    rw [String.data_append]; rfl
  simp [parseArgs, isNonFlag, parseLongArg, hd, splitEq_config, string_mk_data]

theorem parseArgs_short_eq (n : Nat) (v : String) (hv : v ≠ "") (post : List String)
    (f : FlagSet) :
    parseArgs (n + 1) (("-c=" ++ v) :: post) f = parseArgs n post (f.set v) := by
  have hd : ("-c=" ++ v).data = '-' :: 'c' :: '=' :: v.data := by
    rw [String.data_append]; rfl
  match hv2 : v.data with
  | [] => exact absurd (String.ext hv2) hv
  | x :: xs =>
    have hx : (⟨x :: xs⟩ : String) = v := by rw [← hv2]
    simp [parseArgs, isNonFlag, parseShortArg, parseShortLoop, parseSingleShortArg, hd, hv2, hx]

theorem parseArgs_short_attached (n : Nat) (v : String) (hne : v.data.head? ≠ none)
    (heq : v.data.head? ≠ some '=') (post : List String) (f : FlagSet) :
    parseArgs (n + 1) (("-c" ++ v) :: post) f = parseArgs n post (f.set v) := by
  have hd : ("-c" ++ v).data = '-' :: 'c' :: v.data := by
    rw [String.data_append]; rfl
  match hv2 : v.data with
  | [] => simp [hv2] at hne
  | [x] =>
    have hx : (⟨[x]⟩ : String) = v := by rw [← hv2]
    simp [parseArgs, isNonFlag, parseShortArg, parseShortLoop, parseSingleShortArg, hd, hv2, hx]
  | x :: y :: ys =>
    have hx : (⟨x :: y :: ys⟩ : String) = v := by rw [← hv2]
    have hxe : x ≠ '=' := by simpa [hv2] using heq
    simp [parseArgs, isNonFlag, parseShortArg, parseShortLoop, parseSingleShortArg, hd, hv2, hx,
      hxe]

/-- The whole run of `extractConfigPath` on non-flag tokens `pre`, then a
group of tokens `flag` that one round of `parseArgs` turns into the value `v`,
then non-flag tokens `post`. -/
theorem extractConfigPath_around (pre flag post : List String) (v : String)
    (hpre : ∀ t ∈ pre, isNonFlag t = true) (hpost : ∀ t ∈ post, isNonFlag t = true)
    (hflag : 1 ≤ flag.length)
    (hstep : ∀ (n : Nat) (f : FlagSet),
      parseArgs (n + 1) (flag ++ post) f = parseArgs n post (f.set v)) :
    extractConfigPath (pre ++ flag ++ post)
      = some (.ok { args := pre ++ post, configPath := v }) := by
  have hlen : (pre ++ flag ++ post).length
      = pre.length + ((post.length + (flag.length - 1)) + 1) := by
    simp only [List.length_append]; omega
  have key : ∀ f : FlagSet, parseArgs (pre ++ flag ++ post).length (pre ++ flag ++ post) f
      = some (.ok { configFilename := v, args := f.args ++ pre ++ post }) := by
    intro f
    rw [hlen, List.append_assoc, parseArgs_nonFlag_append pre hpre, hstep,
      parseArgs_all_nonFlag post hpost _ (by omega)]
    simp [FlagSet.set]
  unfold extractConfigPath FlagSet.Parse
  simp only [key]
  simp

theorem helpRequested_iff (args : List String) :
    helpRequested args = true ↔ "--help" ∈ args ∨ "-h" ∈ args := by
  induction args with
  | nil => simp [helpRequested]
  | cons f rest ih =>
    unfold helpRequested
    by_cases hf : f = "--help" ∨ f = "-h"
    · rw [if_pos hf]
      rcases hf with hf | hf <;> simp [hf]
    · rw [if_neg hf, ih]
      have h1 : ¬ "--help" = f := fun e => hf (Or.inl e.symm)
      have h2 : ¬ "-h" = f := fun e => hf (Or.inr e.symm)
      simp [List.mem_cons, h1, h2]

/-! ### The parse always finishes -/

theorem parseLongArg_length (s : String) (a rest : List String) (f f1 : FlagSet)
    (h : parseLongArg s a f = .ok (rest, f1)) : rest.length ≤ a.length := by
  unfold parseLongArg at h
  simp only at h
  generalize s.data.drop 2 = name at h
  cases name with
  | nil => simp at h
  | cons c t =>
    simp only at h
    split_ifs at h with h1 h2 h3
    · cases hsp : (splitEq (c :: t)).2 with
      | some v =>
        rw [hsp] at h
        simp only [Except.ok.injEq, Prod.mk.injEq] at h
        rw [← h.1]
      | none =>
        rw [hsp] at h
        cases a with
        | nil => simp at h
        | cons v b =>
          simp only [Except.ok.injEq, Prod.mk.injEq] at h
          rw [← h.1]
          simp

theorem parseSingleShortArg_ok (sh : List Char) (args a : List String) (outs : List Char)
    (f f1 : FlagSet) (h : parseSingleShortArg sh args f = .ok (outs, a, f1)) :
    outs = [] ∧ a.length ≤ args.length := by
  unfold parseSingleShortArg at h
  split_ifs at h with ht
  · simp only [Except.ok.injEq, Prod.mk.injEq] at h
    exact ⟨h.1.symm, by rw [← h.2.1]⟩
  · cases sh with
    | nil =>
      simp only [Except.ok.injEq, Prod.mk.injEq] at h
      exact ⟨h.1.symm, by rw [← h.2.1]⟩
    | cons c outShorts =>
      simp only at h
      split_ifs at h with hc hh
      · cases outShorts with
        | nil =>
          cases args with
          | nil => simp at h
          | cons v rest =>
            simp only [Except.ok.injEq, Prod.mk.injEq] at h
            exact ⟨h.1.symm, by rw [← h.2.1]; simp⟩
        | cons e vs =>
          cases vs with
          | nil =>
            simp only [Except.ok.injEq, Prod.mk.injEq] at h
            exact ⟨h.1.symm, by rw [← h.2.1]⟩
          | cons v vs =>
            simp only at h
            split_ifs at h
            · simp only [Except.ok.injEq, Prod.mk.injEq] at h
              exact ⟨h.1.symm, by rw [← h.2.1]⟩
            · simp only [Except.ok.injEq, Prod.mk.injEq] at h
              exact ⟨h.1.symm, by rw [← h.2.1]⟩

/-- The loop of `parseShortArg` ends within its fuel, and leaves no more
arguments than it was given. -/
theorem parseShortArg_some (s : String) (args : List String) (f : FlagSet) :
    ∃ r, parseShortArg s args f = some r
      ∧ ∀ rest f1, r = .ok (rest, f1) → rest.length ≤ args.length := by
  unfold parseShortArg
  cases hsh : s.data.drop 1 with
  | nil =>
    refine ⟨.ok (args, f), rfl, ?_⟩
    intro rest f1 hr
    simp only [Except.ok.injEq, Prod.mk.injEq] at hr
    rw [← hr.1]
  | cons c cs =>
    simp only [List.length_cons, parseShortLoop]
    cases hone : parseSingleShortArg (c :: cs) args f with
    | error e => exact ⟨.error e, rfl, by intro rest f1 hr; simp at hr⟩
    | ok r =>
      obtain ⟨outs, a, f1⟩ := r
      obtain ⟨houts, hlen⟩ := parseSingleShortArg_ok _ _ _ _ _ _ hone
      subst houts
      refine ⟨.ok (a, f1), by cases cs.length <;> rfl, ?_⟩
      intro rest f2 hr
      simp only [Except.ok.injEq, Prod.mk.injEq] at hr
      rw [← hr.1]
      exact hlen

/-- With fuel for every token `parseArgs` ends. -/
theorem parseArgs_some (n : Nat) :
    ∀ (args : List String) (f : FlagSet), args.length ≤ n → ∃ r, parseArgs n args f = some r := by
  induction n with
  | zero =>
    intro args f hn
    cases args with
    | nil => exact ⟨_, rfl⟩
    | cons s rest => simp at hn
  | succ n ih =>
    intro args f hn
    cases args with
    | nil => exact ⟨_, rfl⟩
    | cons s rest =>
      have hrest : rest.length ≤ n := by simp at hn; omega
      unfold parseArgs
      split_ifs
      · exact ih _ _ hrest
      · exact ⟨_, rfl⟩
      · cases hl : parseLongArg s rest f with
        | error e => exact ⟨_, rfl⟩
        | ok r =>
          obtain ⟨rest1, f1⟩ := r
          exact ih _ _ (le_trans (parseLongArg_length _ _ _ _ _ hl) hrest)
      · obtain ⟨r, hr, hlen⟩ := parseShortArg_some s rest f
        rw [hr]
        cases r with
        | error e => exact ⟨_, rfl⟩
        | ok r =>
          obtain ⟨rest1, f1⟩ := r
          exact ih _ _ (le_trans (hlen rest1 f1 rfl) hrest)

/-- Function `extractConfigPath` returns on every input: the fuel of the
parse never runs out. -/
theorem extractConfigPath_some (args : List String) :
    ∃ r, extractConfigPath args = some r := by
  unfold extractConfigPath FlagSet.Parse
  obtain ⟨r, hr⟩ := parseArgs_some args.length args
    { configFilename := DefaultConfigPath, args := [] } (le_refl _)
  simp only [hr]
  cases r with
  | error e => exact ⟨_, rfl⟩
  | ok fs => exact ⟨_, rfl⟩

/-! ## Theorems on the bytes of a text -/

theorem char_valid (c : Char) :
    c.toNat < 0xd800 ∨ (0xdfff < c.toNat ∧ c.toNat < 0x110000) := by
  have h := c.valid
  simp only [UInt32.isValidChar, Nat.isValidChar] at h
  exact h

theorem decodeRune_one (s0 : Nat) (rest : List Nat) (h : s0 < 0x80) :
    decodeRune (s0 :: rest) = (some (Char.ofNat s0), 1) := by
  simp only [decodeRune, h, if_true]

theorem decodeRune_two (s0 s1 : Nat) (rest : List Nat) (h0 : 0xc2 ≤ s0) (h0' : s0 < 0xe0)
    (h1 : 0x80 ≤ s1) (h1' : s1 ≤ 0xbf) :
    decodeRune (s0 :: s1 :: rest) = (some (Char.ofNat (s0 % 32 * 64 + s1 % 64)), 2) := by
  have e1 : ¬ s0 < 0x80 := by omega
  have e2 : ¬ (s0 < 0xc2 ∨ 0xf4 < s0) := by omega
  have e3 : ¬ (s1 < acceptLo s0 ∨ acceptHi s0 < s1) := by
    unfold acceptLo acceptHi
    rw [if_neg (by omega), if_neg (by omega), if_neg (by omega), if_neg (by omega)]
    omega
  simp only [decodeRune, e1, e2, e3, h0', if_false, if_true]

theorem decodeRune_three (s0 s1 s2 : Nat) (rest : List Nat) (h0 : 0xe0 ≤ s0) (h0' : s0 < 0xf0)
    (h1 : acceptLo s0 ≤ s1) (h1' : s1 ≤ acceptHi s0) (h2 : 0x80 ≤ s2) (h2' : s2 ≤ 0xbf) :
    decodeRune (s0 :: s1 :: s2 :: rest)
      = (some (Char.ofNat (s0 % 16 * 4096 + s1 % 64 * 64 + s2 % 64)), 3) := by
  have e1 : ¬ s0 < 0x80 := by omega
  have e2 : ¬ (s0 < 0xc2 ∨ 0xf4 < s0) := by omega
  have e3 : ¬ (s1 < acceptLo s0 ∨ acceptHi s0 < s1) := by omega
  have e4 : ¬ s0 < 0xe0 := by omega
  have e5 : isCont s2 = true := by simp [isCont, h2, h2']
  simp only [decodeRune, e1, e2, e3, e4, e5, h0', if_false, if_true, Bool.true_eq_false]

theorem decodeRune_four (s0 s1 s2 s3 : Nat) (rest : List Nat) (h0 : 0xf0 ≤ s0)
    (h0' : s0 ≤ 0xf4) (h1 : acceptLo s0 ≤ s1) (h1' : s1 ≤ acceptHi s0) (h2 : 0x80 ≤ s2)
    (h2' : s2 ≤ 0xbf) (h3 : 0x80 ≤ s3) (h3' : s3 ≤ 0xbf) :
    decodeRune (s0 :: s1 :: s2 :: s3 :: rest)
      = (some (Char.ofNat (s0 % 8 * 262144 + s1 % 64 * 4096 + s2 % 64 * 64 + s3 % 64)), 4) := by
  have e1 : ¬ s0 < 0x80 := by omega
  have e2 : ¬ (s0 < 0xc2 ∨ 0xf4 < s0) := by omega
  have e3 : ¬ (s1 < acceptLo s0 ∨ acceptHi s0 < s1) := by omega
  have e4 : ¬ s0 < 0xe0 := by omega
  have e6 : ¬ s0 < 0xf0 := by omega
  have e5 : isCont s2 = true := by simp [isCont, h2, h2']
  have e7 : isCont s3 = true := by simp [isCont, h3, h3']
  simp only [decodeRune, e1, e2, e3, e4, e5, e6, e7, if_false, if_true, Bool.true_eq_false]

/-- Decoding the bytes of a rune gives the rune and the number of its bytes. -/
theorem decodeRune_utf8EncodeRune (c : Char) (rest : List Nat) :
    decodeRune (utf8EncodeRune c ++ rest) = (some c, (utf8EncodeRune c).length) := by
  have hv := char_valid c
  have hc : ∀ n, n = c.toNat → Char.ofNat n = c := fun n hn => by rw [hn, Char.ofNat_toNat]
  generalize hn : c.toNat = n at hv hc
  unfold utf8EncodeRune
  rw [hn]
  split_ifs with h1 h2 h3
  · rw [List.singleton_append, decodeRune_one _ _ h1, hc n rfl]
    rfl
  · have := decodeRune_two (0xc0 + n / 64) (0x80 + n % 64) rest (by omega) (by omega)
      (by omega) (by omega)
    rw [List.cons_append, List.cons_append, List.nil_append, this, hc _ (by omega)]
    rfl
  · have hlo : acceptLo (0xe0 + n / 4096) ≤ 0x80 + n / 64 % 64 := by
      unfold acceptLo; split_ifs <;> omega
    have hhi : 0x80 + n / 64 % 64 ≤ acceptHi (0xe0 + n / 4096) := by
      unfold acceptHi; split_ifs <;> omega
    have := decodeRune_three (0xe0 + n / 4096) (0x80 + n / 64 % 64) (0x80 + n % 64) rest
      (by omega) (by omega) hlo hhi (by omega) (by omega)
    rw [List.cons_append, List.cons_append, List.cons_append, List.nil_append, this,
      hc _ (by omega)]
    rfl
  · have hlo : acceptLo (0xf0 + n / 262144) ≤ 0x80 + n / 4096 % 64 := by
      unfold acceptLo; split_ifs <;> omega
    have hhi : 0x80 + n / 4096 % 64 ≤ acceptHi (0xf0 + n / 262144) := by
      unfold acceptHi; split_ifs <;> omega
    have := decodeRune_four (0xf0 + n / 262144) (0x80 + n / 4096 % 64)
      (0x80 + n / 64 % 64) (0x80 + n % 64) rest
      (by omega) (by omega) hlo hhi (by omega) (by omega) (by omega) (by omega)
    rw [List.cons_append, List.cons_append, List.cons_append, List.cons_append,
      List.nil_append, this, hc _ (by omega)]
    rfl

theorem encodeFrom_skip (xs rest : List Nat) :
    encodeFrom xs.length (xs ++ rest) = encodeFrom 0 rest := by
  induction xs with
  | nil => rfl
  | cons x xs ih =>
    rw [List.length_cons, List.cons_append, encodeFrom]
    · exact ih

theorem utf8EncodeRune_cons (c : Char) :
    ∃ b bs, utf8EncodeRune c = b :: bs := by
  unfold utf8EncodeRune
  split_ifs <;> exact ⟨_, _, rfl⟩

/-- The encoder reads the bytes of a rune as that rune. -/
theorem encodeFrom_utf8EncodeRune (c : Char) (rest : List Nat) :
    encodeFrom 0 (utf8EncodeRune c ++ rest) = encodeChar c ++ encodeFrom 0 rest := by
  have hd := decodeRune_utf8EncodeRune c rest
  obtain ⟨b, bs, hb⟩ := utf8EncodeRune_cons c
  rw [hb] at hd ⊢
  rw [List.cons_append] at hd ⊢
  rw [encodeFrom]
  simp only [encodeStep, hd, List.length_cons, Nat.add_sub_cancel]
  rw [encodeFrom_skip]

/-- On the bytes of a text the encoder works character by character. -/
theorem encodeFrom_utf8 (s : List Char) :
    encodeFrom 0 (s.flatMap utf8EncodeRune) = s.flatMap encodeChar := by
  induction s with
  | nil => rfl
  | cons c s ih =>
    rw [List.flatMap_cons, List.flatMap_cons, encodeFrom_utf8EncodeRune, ih]

/-! ## Theorems on the JSON form of the cache record -/

theorem dquote_ne_backslash : dquote ≠ backslash := by decide
theorem backslash_ne_dquote : backslash ≠ dquote := by decide

theorem hexVal_hexDigit (n : Nat) (hn : n < 16) : hexVal (hexDigit n) = some n := by
  interval_cases n <;> rfl

theorem char_eq_of_toNat (c : Char) (n : Nat) (h : c.toNat = n) : c = Char.ofNat n := by
  rw [← h, Char.ofNat_toNat]

theorem unquoteStep_u00 (n : Nat) (hn : n < 64) (tail : List Char) :
    unquoteStep (backslash :: 'u' :: '0' :: '0' :: hexDigit (n / 16) :: hexDigit (n % 16) :: tail)
      = some (some (Char.ofNat n), tail) := by
  interval_cases n <;> rfl

/-- Reading back one encoded character gives the character. -/
theorem unquoteStep_encodeChar (c : Char) (tail : List Char) :
    unquoteStep (encodeChar c ++ tail) = some (some c, tail) := by
  unfold encodeChar
  split_ifs with h1 h2 h3 h4 h5 h6
  · rcases h1 with h1 | h1 <;> subst h1 <;> rfl
  · subst h2; rfl
  · subst h3; rfl
  · subst h4; rfl
  · have hlt : c.toNat < 64 := by
      rcases h5 with h5 | h5 | h5 | h5
      · omega
      · subst h5; decide
      · subst h5; decide
      · subst h5; decide
    have h := unquoteStep_u00 c.toNat hlt tail
    rw [Char.ofNat_toNat] at h
    exact h
  · rcases h6 with h6 | h6
    · rw [char_eq_of_toNat c _ h6]; rfl
    · rw [char_eq_of_toNat c _ h6]; rfl
  · have hd : c ≠ dquote := fun e => h1 (Or.inl e)
    have hb : c ≠ backslash := fun e => h1 (Or.inr e)
    have hc : ¬ c.toNat < 32 := fun e => h5 (Or.inl e)
    simp [unquoteStep, hd, hb, hc]

/-- Reading back an encoded text up to the closing quote gives the text. -/
theorem unquoteLoop_encode (D : List Char) (rest : List Char) :
    ∀ n, D.length + 1 ≤ n →
      unquoteLoop n (D.flatMap encodeChar ++ dquote :: rest) = some (D, rest) := by
  induction D with
  | nil =>
    intro n hn
    obtain ⟨k, rfl⟩ : ∃ k, n = k + 1 := ⟨n - 1, by simp at hn; omega⟩
    rfl
  | cons c D ih =>
    intro n hn
    obtain ⟨k, rfl⟩ : ∃ k, n = k + 1 := ⟨n - 1, by simp at hn; omega⟩
    have hk : D.length + 1 ≤ k := by simp at hn; omega
    rw [List.flatMap_cons, List.append_assoc, unquoteLoop, unquoteStep_encodeChar]
    simp [ih k hk]

theorem encodeChar_length (c : Char) : 1 ≤ (encodeChar c).length := by
  unfold encodeChar
  split_ifs <;> simp

theorem flatMap_encodeChar_length (D : List Char) :
    D.length ≤ (D.flatMap encodeChar).length := by
  induction D with
  | nil => simp
  | cons c D ih =>
    have := encodeChar_length c
    simp only [List.flatMap_cons, List.length_append, List.length_cons]
    omega

theorem unquoteBody_encode (D : List Char) (rest : List Char) :
    unquoteBody (D.flatMap encodeChar ++ dquote :: rest) = some (D, rest) := by
  unfold unquoteBody
  apply unquoteLoop_encode
  have := flatMap_encodeChar_length D
  simp only [List.length_append, List.length_cons]
  omega

theorem skipSpace_cons (c : Char) (cs : List Char) (h : isSpaceJSON c = false) :
    skipSpace (c :: cs) = c :: cs := by
  simp [skipSpace, h]

theorem parseValue_record (D : List Char) (n : Nat) :
    parseValue (n + 3) ('\x7b' :: dquote :: ("LatestSha256".data ++ dquote ::
        ':' :: dquote :: (D.flatMap encodeChar ++ dquote :: ['\x7d'])))
      = some (.obj [("LatestSha256", .str ⟨D⟩)], []) := by
  have hk : "LatestSha256".data.flatMap encodeChar = "LatestSha256".data := by decide
  have hkey := unquoteBody_encode "LatestSha256".data
    (':' :: dquote :: (D.flatMap encodeChar ++ dquote :: ['\x7d']))
  rw [hk] at hkey
  have hval := unquoteBody_encode D ['\x7d']
  generalize hK : "LatestSha256".data = K at hkey ⊢
  generalize D.flatMap encodeChar = V at hkey hval ⊢
  have hq1 : isSpaceJSON dquote = false := by decide
  have hq2 : dquote ≠ '\x7d' := by decide
  have hq3 : dquote ≠ '\x7b' := by decide
  have hq4 : dquote ≠ '[' := by decide
  have hc1 : isSpaceJSON ':' = false := by decide
  have hb1 : isSpaceJSON '\x7d' = false := by decide
  rw [parseValue, if_pos rfl, skipSpace_cons _ _ hq1]
  simp only [if_neg hq2]
  rw [parseMembers, if_pos rfl, hkey]
  simp only [skipSpace_cons _ _ hc1, if_pos]
  rw [skipSpace_cons _ _ hq1, parseValue, if_neg hq3, if_neg hq4, if_pos rfl, hval]
  simp only [Option.map, skipSpace_cons _ _ hb1]
  simp
  subst hK
  rfl

/-- The record written for the bytes of a text, character by character. -/
theorem marshalSettings_data (v : buildAgentSettings) :
    (marshalSettings v).data
      = '\x7b' :: dquote :: ("LatestSha256".data ++ dquote ::
        ':' :: dquote :: (v.LatestSha256.data.flatMap encodeChar ++ dquote :: ['\x7d'])) := by
  simp only [marshalSettings, marshalRecord, encodeString, utf8Bytes, encodeFrom_utf8,
    List.cons_append, List.append_assoc, List.nil_append]

theorem parseJSON_marshalSettings (v : buildAgentSettings) :
    parseJSON (marshalSettings v).data
      = some (.obj [("LatestSha256", .str v.LatestSha256)]) := by
  have hb : isSpaceJSON '\x7b' = false := by decide
  unfold parseJSON
  rw [marshalSettings_data, skipSpace_cons _ _ hb, List.length_cons, List.length_cons,
    parseValue_record v.LatestSha256.data]
  rfl

/-- Decoding what `json.Marshal` wrote gives back the record, without error. -/
theorem unmarshalSettings_marshalSettings (v s0 : buildAgentSettings) :
    unmarshalSettings (marshalSettings v) s0 = (v, none) := by
  unfold unmarshalSettings
  rw [parseJSON_marshalSettings]
  have hk : equalFoldRight "LatestSha256".data ("LatestSha256" : String).data = true := by
    decide
  simp [decodeMember, hk]

/-! ## Theorems on the digest cache store and the resolver -/

@[simp] theorem log_env (h : Host) (e : Event) : (h.log e).env = h.env := rfl

@[simp] theorem log_settingsFile (h : Host) (e : Event) :
    (h.log e).settingsFile = h.settingsFile := rfl

@[simp] theorem log_trace (h : Host) (e : Event) : (h.log e).trace = h.trace ++ [e] := rfl

/-- What `loadCurrentBuildAgentSha` leaves alone: the answers, the settings
file, and the counts of refreshes, pulls and stores. -/
theorem load_frame (h : Host) :
    (loadCurrentBuildAgentSha h).2.env = h.env
      ∧ (loadCurrentBuildAgentSha h).2.settingsFile = h.settingsFile
      ∧ refreshes (loadCurrentBuildAgentSha h).2 = refreshes h
      ∧ pulls (loadCurrentBuildAgentSha h).2 = pulls h
      ∧ stores (loadCurrentBuildAgentSha h).2 = stores h := by
  unfold loadCurrentBuildAgentSha
  repeat' split
  all_goals simp [refreshes, pulls, stores, List.countP_append]

/-- A digest that is not empty is returned without any action. -/
theorem load_hit (h : Host) (D : String) (hD : D ≠ "")
    (hl : (loadCurrentBuildAgentSha h).1 = .ok D) : loadCurrentBuildAgentSha h = (.ok D, h) := by
  unfold loadCurrentBuildAgentSha at hl ⊢
  repeat' split
  all_goals simp_all

/-- A settings file written by `json.Marshal` is read back without any
action. -/
theorem load_of_content (h : Host) (d : String)
    (hf : h.settingsFile = .content (marshalSettings { LatestSha256 := d })) :
    loadCurrentBuildAgentSha h = (.ok d, h) := by
  unfold loadCurrentBuildAgentSha
  rw [hf]
  simp [unmarshalSettings_marshalSettings]

theorem ensure_frame (h : Host) :
    (ensureDockerIsAvailable h).2.env = h.env
      ∧ (ensureDockerIsAvailable h).2.settingsFile = h.settingsFile
      ∧ refreshes (ensureDockerIsAvailable h).2 = refreshes h
      ∧ pulls (ensureDockerIsAvailable h).2 = pulls h
      ∧ stores (ensureDockerIsAvailable h).2 = stores h := by
  unfold ensureDockerIsAvailable
  repeat' split
  all_goals simp [refreshes, pulls, stores, List.countP_append]

theorem ensure_ok (h : Host) (path : String) (hl : h.env.lookPathDocker = .ok path)
    (hv : h.env.dockerVersionOk = true) :
    ensureDockerIsAvailable h = (none, h.log .dockerVersion) := by
  unfold ensureDockerIsAvailable
  simp [hl, hv]

/-- What `storeBuildAgentSha` does to the host. -/
theorem store_frame (d : GoString) (h : Host) :
    (storeBuildAgentSha d h).2.env = h.env
      ∧ refreshes (storeBuildAgentSha d h).2 = refreshes h
      ∧ pulls (storeBuildAgentSha d h).2 = pulls h
      ∧ stores (storeBuildAgentSha d h).2 = stores h + 1 := by
  unfold storeBuildAgentSha
  repeat' split
  all_goals simp [refreshes, pulls, stores, List.countP_append]

/-- After a successful store the settings file holds the record. -/
theorem store_ok (d : GoString) (h : Host) (hs : (storeBuildAgentSha d h).1 = none) :
    (storeBuildAgentSha d h).2.settingsFile = .content (marshalRecord d) := by
  unfold storeBuildAgentSha at hs ⊢
  repeat' split
  all_goals simp_all

/-- The store succeeds exactly when the directory and the file can be
written. -/
theorem store_succeeds (d : GoString) (h : Host) (hm : h.env.mkdirAllErr = none)
    (hw : h.env.writeFileErr = none) : (storeBuildAgentSha d h).1 = none := by
  unfold storeBuildAgentSha
  simp [hm, hw]

/-- The five ways `findLatestPicardSha` ends. -/
theorem find_cases (h : Host) :
    (∃ e, findLatestPicardSha h = (.fail e, h.log .refresh))
      ∨ (∃ e, findLatestPicardSha h = (.fail e, (h.log .refresh).log .dockerVersion))
      ∨ (∃ e, h.env.pullErr = some e ∧ findLatestPicardSha h
          = (.fail (.wrap e "failed to pull latest docker image"), afterPull h))
      ∨ (findSha h.env.pullOutput.data = [] ∧ findLatestPicardSha h
          = (.fail (.text "failed to parse sha256 from docker pull output"), afterPull h))
      ∨ (findSha h.env.pullOutput.data ≠ [] ∧ ∃ e,
          findLatestPicardSha h
            = (.fail e, (storeBuildAgentSha (utf8Bytes ⟨findSha h.env.pullOutput.data⟩) (afterPull h)).2))
      ∨ (findSha h.env.pullOutput.data ≠ []
          ∧ (storeBuildAgentSha (utf8Bytes ⟨findSha h.env.pullOutput.data⟩) (afterPull h)).1 = none
          ∧ findLatestPicardSha h
            = (.ok ⟨findSha h.env.pullOutput.data⟩,
                (storeBuildAgentSha (utf8Bytes ⟨findSha h.env.pullOutput.data⟩) (afterPull h)).2)) := by
  rcases hl : h.env.lookPathDocker with e | path
  · left
    exact ⟨_, by simp [findLatestPicardSha, ensureDockerIsAvailable, hl]; rfl⟩
  · rcases hv : h.env.dockerVersionOk
    · right; left
      exact ⟨_, by simp [findLatestPicardSha, ensureDockerIsAvailable, hl, hv]; rfl⟩
    · rcases hp : h.env.pullErr with _ | e
      · by_cases hm : findSha h.env.pullOutput.data = []
        · right; right; right; left
          refine ⟨hm, ?_⟩
          simp [findLatestPicardSha, ensureDockerIsAvailable, hl, hv, hp, hm, afterPull]
        · have hne : (⟨findSha h.env.pullOutput.data⟩ : String) ≠ "" := by
            intro hc
            exact hm (congrArg String.data hc)
          rcases hst : (storeBuildAgentSha (utf8Bytes ⟨findSha h.env.pullOutput.data⟩) (afterPull h))
            with ⟨r, h3⟩
          rcases r with _ | e
          · right; right; right; right; right
            refine ⟨hm, rfl, ?_⟩
            simp [findLatestPicardSha, ensureDockerIsAvailable, hl, hv, hp, hne]
            simp [afterPull] at hst
            rw [hst]
          · right; right; right; right; left
            refine ⟨hm, e, ?_⟩
            simp [findLatestPicardSha, ensureDockerIsAvailable, hl, hv, hp, hne]
            simp [afterPull] at hst
            rw [hst]
      · right; right; left
        exact ⟨e, rfl, by
          simp [findLatestPicardSha, ensureDockerIsAvailable, hl, hv, hp, afterPull]⟩

theorem afterPull_counts (h : Host) :
    (afterPull h).env = h.env ∧ (afterPull h).settingsFile = h.settingsFile
      ∧ refreshes (afterPull h) = refreshes h + 1 ∧ pulls (afterPull h) = pulls h + 1
      ∧ stores (afterPull h) = stores h := by
  simp [afterPull, refreshes, pulls, stores, List.countP_append]

/-- What `findLatestPicardSha` does to the counts: one refresh more, at most
one pull more. -/
theorem find_frame (h : Host) :
    (findLatestPicardSha h).2.env = h.env
      ∧ refreshes (findLatestPicardSha h).2 = refreshes h + 1
      ∧ pulls (findLatestPicardSha h).2 ≤ pulls h + 1 := by
  have hap := afterPull_counts h
  have hst := store_frame (utf8Bytes ⟨findSha h.env.pullOutput.data⟩) (afterPull h)
  rcases find_cases h with ⟨e, hc⟩ | ⟨e, hc⟩ | ⟨e, _, hc⟩ | ⟨_, hc⟩ | ⟨_, e, hc⟩ | ⟨_, _, hc⟩
  · rw [hc]; simp [refreshes, pulls, List.countP_append]
  · rw [hc]; simp [refreshes, pulls, List.countP_append]
  · rw [hc]; exact ⟨hap.1, hap.2.2.1, le_of_eq hap.2.2.2.1⟩
  · rw [hc]; exact ⟨hap.1, hap.2.2.1, le_of_eq hap.2.2.2.1⟩
  · rw [hc]
    exact ⟨hst.1.trans hap.1, hst.2.1.trans hap.2.2.1, le_of_eq (hst.2.2.1.trans hap.2.2.2.1)⟩
  · rw [hc]
    exact ⟨hst.1.trans hap.1, hst.2.1.trans hap.2.2.1, le_of_eq (hst.2.2.1.trans hap.2.2.2.1)⟩

/-- A successful refresh returns the first match of the pull output, which
is not empty, after one pull, and leaves it in the settings file. -/
theorem find_ok (h : Host) (d : String) (hf : (findLatestPicardSha h).1 = .ok d) :
    d = ⟨findSha h.env.pullOutput.data⟩ ∧ d ≠ ""
      ∧ (findLatestPicardSha h).2.settingsFile
          = .content (marshalSettings { LatestSha256 := d })
      ∧ pulls (findLatestPicardSha h).2 = pulls h + 1 := by
  have hap := afterPull_counts h
  have hst := store_frame (utf8Bytes ⟨findSha h.env.pullOutput.data⟩) (afterPull h)
  rcases find_cases h with ⟨e, hc⟩ | ⟨e, hc⟩ | ⟨e, _, hc⟩ | ⟨_, hc⟩ | ⟨_, e, hc⟩ | ⟨hne, hs, hc⟩
  · rw [hc] at hf; simp at hf
  · rw [hc] at hf; simp at hf
  · rw [hc] at hf; simp at hf
  · rw [hc] at hf; simp at hf
  · rw [hc] at hf; simp at hf
  · rw [hc] at hf
    have hd : d = ⟨findSha h.env.pullOutput.data⟩ := by
      simp only [Result.ok.injEq] at hf
      exact hf.symm
    subst hd
    refine ⟨rfl, ?_, ?_, ?_⟩
    · intro hc2
      exact hne (congrArg String.data hc2)
    · rw [hc]
      exact store_ok _ _ hs
    · rw [hc]
      exact hst.2.2.1.trans hap.2.2.2.1

theorem find_no_panic (h : Host) (v : Failure) : (findLatestPicardSha h).1 ≠ .panicked v := by
  rcases find_cases h with ⟨e, hc⟩ | ⟨e, hc⟩ | ⟨e, _, hc⟩ | ⟨_, hc⟩ | ⟨_, e, hc⟩ | ⟨_, _, hc⟩
  all_goals rw [hc]; simp

/-- With no match in the pull output `findLatestPicardSha` fails, does not
enter `storeBuildAgentSha` and leaves the settings file as it was. -/
theorem find_no_match (h : Host) (hno : findSha h.env.pullOutput.data = []) :
    (∃ e, (findLatestPicardSha h).1 = .fail e)
      ∧ stores (findLatestPicardSha h).2 = stores h
      ∧ (findLatestPicardSha h).2.settingsFile = h.settingsFile := by
  have hap := afterPull_counts h
  rcases find_cases h with ⟨e, hc⟩ | ⟨e, hc⟩ | ⟨e, _, hc⟩ | ⟨_, hc⟩ | ⟨hne, _⟩ | ⟨hne, _⟩
  · rw [hc]; simp [stores, List.countP_append]
  · rw [hc]; simp [stores, List.countP_append]
  · rw [hc]; exact ⟨⟨_, rfl⟩, hap.2.2.2.2, hap.2.1⟩
  · rw [hc]; exact ⟨⟨_, rfl⟩, hap.2.2.2.2, hap.2.1⟩
  · exact absurd hno hne
  · exact absurd hno hne

/-- With docker available and a pull that exits without error, an output
with no match gives the digest-not-found error. -/
theorem find_no_match_error (h : Host) (path : String)
    (hl : h.env.lookPathDocker = .ok path) (hv : h.env.dockerVersionOk = true)
    (hp : h.env.pullErr = none) (hno : findSha h.env.pullOutput.data = []) :
    findLatestPicardSha h
      = (.fail (.text "failed to parse sha256 from docker pull output"), afterPull h) := by
  simp [findLatestPicardSha, ensureDockerIsAvailable, hl, hv, hp, hno, afterPull]

/-! ## Theorems on the text scan -/

theorem takeWhile_cons_eq (p : Char → Bool) (l : List Char) (d : Char) (ds : List Char)
    (h : l.takeWhile p = d :: ds) : ∃ post, l = d :: post ∧ p d = true := by
  cases l with
  | nil => simp at h
  | cons x xs =>
    rw [List.takeWhile_cons] at h
    by_cases hx : p x = true
    · rw [if_pos hx] at h
      have hxd : x = d := (List.cons.inj h).1
      subst hxd
      exact ⟨xs, rfl, hx⟩
    · rw [if_neg hx] at h
      simp at h

/-- A match at the front of the input is `sha256:` and the hex digits after
it, of which there is at least one. -/
theorem matchSha_some (s m : List Char) (h : matchSha s = some m) :
    ∃ rest, s = "sha256:".data ++ rest
      ∧ m = "sha256:".data ++ rest.takeWhile isLowerHex
      ∧ rest.takeWhile isLowerHex ≠ [] := by
  unfold matchSha at h
  split at h
  · rename_i rest
    split at h
    · simp at h
    · rename_i d ds hd
      refine ⟨rest, rfl, ?_, ?_⟩
      · rw [hd]
        simp only [Option.some.injEq] at h
        exact h.symm
      · rw [hd]; simp
  · simp at h

/-- Without a digest in the text the scan finds nothing. -/
theorem findSha_of_not_hasDigest (s : List Char) (h : ¬ hasDigest s) : findSha s = [] := by
  induction s with
  | nil => rfl
  | cons c cs ih =>
    unfold findSha
    cases hm : matchSha (c :: cs) with
    | some m =>
      exfalso
      obtain ⟨rest, hs, _, hne⟩ := matchSha_some _ _ hm
      cases htw : rest.takeWhile isLowerHex with
      | nil => exact hne htw
      | cons d ds =>
        obtain ⟨post, hrest, hd⟩ := takeWhile_cons_eq _ _ _ _ htw
        exact h ⟨[], d, post, by rw [hs, hrest]; rfl, hd⟩
    | none =>
      simp only
      apply ih
      rintro ⟨pre, d, post, hcs, hd⟩
      exact h ⟨c :: pre, d, post, by rw [hcs]; rfl, hd⟩

/-- Every character of what the scan finds is a character of `sha256:` or a
lowercase hexadecimal digit. -/
theorem findSha_chars (s : List Char) :
    ∀ c ∈ findSha s, c ∈ "sha256:".data ∨ isLowerHex c = true := by
  induction s with
  | nil => intro c hc; simp [findSha] at hc
  | cons x xs ih =>
    intro c hc
    unfold findSha at hc
    cases hm : matchSha (x :: xs) with
    | some m =>
      rw [hm] at hc
      simp only at hc
      obtain ⟨rest, _, hmeq, _⟩ := matchSha_some _ _ hm
      rw [hmeq, List.mem_append] at hc
      rcases hc with hc | hc
      · exact Or.inl hc
      · exact Or.inr (List.mem_takeWhile_imp hc)
    | none =>
      rw [hm] at hc
      exact ih c hc

theorem isSpace_of_sha_char (c : Char)
    (hc : c ∈ "sha256:".data ∨ isLowerHex c = true) : isSpace c = false := by
  rcases hc with hc | hc
  · have : c = 's' ∨ c = 'h' ∨ c = 'a' ∨ c = '2' ∨ c = '5' ∨ c = '6' ∨ c = ':' := by
      simpa using hc
    rcases this with h | h | h | h | h | h | h <;> subst h <;> rfl
  · simp only [isLowerHex, Bool.decide_or, Bool.decide_and, Bool.or_eq_true, Bool.and_eq_true,
      decide_eq_true_eq] at hc
    simp only [isSpace, decide_eq_false_iff_not]
    omega

/-! ## Theorems on `picardImage` -/

theorem imageRef_eq (d : String) : picardRepo ++ "@" ++ d = "circleci/picard@" ++ d := by
  rw [String.append_assoc]
  rfl

/-- A cache hit: the digest is used as it is and nothing but the last
message happens. -/
theorem picardImage_hit (h : Host) (D : String) (hD : D ≠ "")
    (hl : (loadCurrentBuildAgentSha h).1 = .ok D) :
    picardImage h = (.ok ("circleci/picard@" ++ D), h.log (digestLine D)) := by
  unfold picardImage
  rw [load_hit h D hD hl]
  simp [hD, imageRef_eq, digestLine]

/-- A cache miss: `picardImage` is one call of `findLatestPicardSha`. -/
theorem picardImage_miss (h : Host) (hl : (loadCurrentBuildAgentSha h).1 = .ok "") :
    picardImage h =
      match findLatestPicardSha (beforeRefresh h) with
      | (.ok sha1, h3) => (.ok ("circleci/picard@" ++ sha1), h3.log (digestLine sha1))
      | (.fail err, h3) => (.fail err, h3)
      | (.panicked v, h3) => (.panicked v, h3) := by
  unfold picardImage beforeRefresh
  rcases hlh : loadCurrentBuildAgentSha h with ⟨r, h1⟩
  rw [hlh] at hl
  simp only at hl
  subst hl
  simp only [if_true]
  rcases findLatestPicardSha (h1.log (Event.stdout "Downloading latest CircleCI build agent...\n"))
    with ⟨r2, h3⟩
  cases r2 <;> simp [imageRef_eq, digestLine]

theorem beforeRefresh_counts (h : Host) :
    (beforeRefresh h).env = h.env ∧ (beforeRefresh h).settingsFile = h.settingsFile
      ∧ refreshes (beforeRefresh h) = refreshes h ∧ pulls (beforeRefresh h) = pulls h
      ∧ stores (beforeRefresh h) = stores h := by
  have hf := load_frame h
  unfold beforeRefresh
  refine ⟨hf.1, hf.2.1, ?_, ?_, ?_⟩
  · rw [← hf.2.2.1]; simp [refreshes, List.countP_append]
  · rw [← hf.2.2.2.1]; simp [pulls, List.countP_append]
  · rw [← hf.2.2.2.2]; simp [stores, List.countP_append]

theorem log_stdout_counts (h : Host) (t : String) :
    refreshes (h.log (.stdout t)) = refreshes h ∧ pulls (h.log (.stdout t)) = pulls h
      ∧ stores (h.log (.stdout t)) = stores h := by
  simp [refreshes, pulls, stores, List.countP_append]

/-- The cache is never read with an error: `loadCurrentBuildAgentSha` returns
a string or panics. -/
theorem load_no_fail (h : Host) (e : Failure) : (loadCurrentBuildAgentSha h).1 ≠ .fail e := by
  unfold loadCurrentBuildAgentSha
  repeat' split
  all_goals simp

theorem picardImage_env (h : Host) : (picardImage h).2.env = h.env := by
  have hb := beforeRefresh_counts h
  have hf := find_frame (beforeRefresh h)
  rcases hl : (loadCurrentBuildAgentSha h).1 with sha | e | v
  · by_cases hs : sha = ""
    · subst hs
      rw [picardImage_miss h hl]
      rcases hfd : findLatestPicardSha (beforeRefresh h) with ⟨r, h3⟩
      rw [hfd] at hf
      cases r <;> simp only [log_env] <;> exact hf.1.trans hb.1
    · rw [picardImage_hit h sha hs hl]; rfl
  · exact absurd hl (load_no_fail h e)
  · unfold picardImage
    rcases hlh : loadCurrentBuildAgentSha h with ⟨r, h1⟩
    rw [hlh] at hl
    simp only at hl
    subst hl
    have := (load_frame h).1
    rw [hlh] at this
    exact this

theorem matchSha_digest (d : Char) (post : List Char) (hd : isLowerHex d = true) :
    matchSha ("sha256:".data ++ d :: post)
      = some ("sha256:".data ++ d :: post.takeWhile isLowerHex) := by
  show matchSha ('s' :: 'h' :: 'a' :: '2' :: '5' :: '6' :: ':' :: d :: post) = _
  unfold matchSha
  simp [List.takeWhile_cons, hd]

/-- With a digest in the text the scan finds something. -/
theorem findSha_of_hasDigest (s : List Char) (h : hasDigest s) : findSha s ≠ [] := by
  obtain ⟨pre, d, post, hs, hd⟩ := h
  subst hs
  induction pre with
  | nil =>
    have hm := matchSha_digest d post hd
    show findSha ('s' :: 'h' :: 'a' :: '2' :: '5' :: '6' :: ':' :: d :: post) ≠ []
    unfold findSha
    have hm2 : matchSha ('s' :: 'h' :: 'a' :: '2' :: '5' :: '6' :: ':' :: d :: post)
        = some ("sha256:".data ++ d :: post.takeWhile isLowerHex) := hm
    rw [hm2]
    simp
  | cons c pre ih =>
    show findSha (c :: (pre ++ "sha256:".data ++ d :: post)) ≠ []
    unfold findSha
    cases hm : matchSha (c :: (pre ++ "sha256:".data ++ d :: post)) with
    | some m =>
      obtain ⟨rest, _, hmeq, _⟩ := matchSha_some _ _ hm
      simp only
      rw [hmeq]
      simp
    | none => exact ih

/-! ## Theorems on `Execute` -/

theorem launch_finishes (opts : BuildOptions) (arguments : List String) (h : Host) :
    (launch opts arguments h).1 ≠ .unfinished := by
  unfold launch
  repeat' split
  all_goals simp_all

/-- Function `Execute` never ends for want of fuel. -/
theorem Execute_finishes (opts : BuildOptions) (h : Host) :
    (Execute opts h).1 ≠ .unfinished := by
  obtain ⟨r, hr⟩ := extractConfigPath_some opts.Args
  unfold Execute
  rw [hr]
  split_ifs
  · simp
  · cases r with
    | error e => simp
    | ok pa =>
      simp only
      repeat' split
      all_goals first
        | exact launch_finishes _ _ _
        | simp

/-! ## The claims on argument splitting -/

/-- C1 (as stated, refuted): the sequence `--config foo -c bar` contains the
config flag `--config` with the value `foo` as the following token, yet the
result is the path `bar` with no argument left, neither the path `foo` with
the arguments `-c bar` nor the path `bar` with the arguments `--config foo`.
And in `-- --config foo` the flag and its value stay in `args`, with the
default path. -/
theorem extractConfigPath_two_flags :
    extractConfigPath ["--config", "foo", "-c", "bar"]
        = some (.ok { args := [], configPath := "bar" })
      ∧ extractConfigPath ["--config", "foo", "-c", "bar"]
        ≠ some (.ok { args := ["-c", "bar"], configPath := "foo" })
      ∧ extractConfigPath ["--config", "foo", "-c", "bar"]
        ≠ some (.ok { args := ["--config", "foo"], configPath := "bar" })
      ∧ extractConfigPath ["--", "--config", "foo"]
        = some (.ok { args := ["--config", "foo"], configPath := DefaultConfigPath }) := by
  decide

/-- C1 (amended): when every token other than the config flag and its value
is a non-flag token (empty, a single character, or not starting with a dash),
`extractConfigPath` succeeds, returns the value as `configPath` and returns
the other tokens in their order as `args`.  This holds for the value as the
following token (`--config v`, `-c v`, any token `v`) and for the value
attached (`--config=v`; `-c=v` with `v` not empty; `-cv` with `v` not empty
and not starting with `=`). -/
theorem extractConfigPath_config_flag (pre post : List String) (v : String)
    (hpre : ∀ t ∈ pre, isNonFlag t = true) (hpost : ∀ t ∈ post, isNonFlag t = true) :
    extractConfigPath (pre ++ "--config" :: v :: post)
        = some (.ok { args := pre ++ post, configPath := v })
      ∧ extractConfigPath (pre ++ "-c" :: v :: post)
        = some (.ok { args := pre ++ post, configPath := v })
      ∧ extractConfigPath (pre ++ ("--config=" ++ v) :: post)
        = some (.ok { args := pre ++ post, configPath := v })
      ∧ (v ≠ "" → extractConfigPath (pre ++ ("-c=" ++ v) :: post)
        = some (.ok { args := pre ++ post, configPath := v }))
      ∧ (v.data.head? ≠ none → v.data.head? ≠ some '=' →
          extractConfigPath (pre ++ ("-c" ++ v) :: post)
            = some (.ok { args := pre ++ post, configPath := v })) := by
  refine ⟨?_, ?_, ?_, ?_, ?_⟩
  · have h := extractConfigPath_around pre ["--config", v] post v hpre hpost (by simp)
      (fun n f => parseArgs_long_next n v post f)
    simpa using h
  · have h := extractConfigPath_around pre ["-c", v] post v hpre hpost (by simp)
      (fun n f => parseArgs_short_next n v post f)
    simpa using h
  · have h := extractConfigPath_around pre ["--config=" ++ v] post v hpre hpost (by simp)
      (fun n f => parseArgs_long_attached n v post f)
    simpa using h
  · intro hv
    have h := extractConfigPath_around pre ["-c=" ++ v] post v hpre hpost (by simp)
      (fun n f => parseArgs_short_eq n v hv post f)
    simpa using h
  · intro hne heq
    have h := extractConfigPath_around pre ["-c" ++ v] post v hpre hpost (by simp)
      (fun n f => parseArgs_short_attached n v hne heq post f)
    simpa using h

/-- Witness of C1 (amended): the sequence `a b --config foo d` of the test. -/
theorem extractConfigPath_config_flag_witness :
    (∀ t ∈ ["a", "b"], isNonFlag t = true) ∧ (∀ t ∈ ["d"], isNonFlag t = true)
      ∧ extractConfigPath ["a", "b", "--config", "foo", "d"]
        = some (.ok { args := ["a", "b", "d"], configPath := "foo" }) :=
  ⟨by decide, by decide,
    (extractConfigPath_config_flag ["a", "b"] ["d"] "foo" (by decide) (by decide)).1⟩

/-- C2 (failing input): the flag `--job` of the build agent, which the help
of the command documents, makes `extractConfigPath` fail with
`unknown flag: --job`; so does the shorthand `-e`. -/
theorem extractConfigPath_unknown_flag :
    extractConfigPath ["--job", "build"] = some (.error (.unknownFlag "job"))
      ∧ (ParseError.unknownFlag "job").Error = "unknown flag: --job"
      ∧ extractConfigPath ["-e", "VAR=VAL"] = some (.error (.unknownShorthand 'e' "e")) := by
  decide

/-- C3 (as stated, refuted): in the sequence `-- --config` the config flag
is the last token and has no value, yet `extractConfigPath` succeeds, with
the default path and `--config` as an argument; and in `-h --config` the
failure is `pflag: help requested`, not the missing argument error. -/
theorem extractConfigPath_after_terminator :
    extractConfigPath ["--", "--config"]
        = some (.ok { args := ["--config"], configPath := DefaultConfigPath })
      ∧ extractConfigPath ["-h", "--config"] = some (.error .errHelp)
      ∧ ParseError.errHelp.Error = "pflag: help requested" := by
  decide

/-- C3 (amended): when the config flag is the last token and every token
before it is a non-flag token, `extractConfigPath` fails with the missing
argument error and returns no `processedArgs`: the message is
`flag needs an argument: --config` for the long form and
`flag needs an argument: 'c' in -c` for the short form. -/
theorem extractConfigPath_missing_value (pre : List String)
    (hpre : ∀ t ∈ pre, isNonFlag t = true) :
    extractConfigPath (pre ++ ["--config"]) = some (.error (.needsArgument "--config"))
      ∧ (ParseError.needsArgument "--config").Error = "flag needs an argument: --config"
      ∧ extractConfigPath (pre ++ ["-c"]) = some (.error (.needsArgumentShort 'c' "c"))
      ∧ (ParseError.needsArgumentShort 'c' "c").Error
        = "flag needs an argument: \x27c\x27 in -c" := by
  have hlong : ∀ f : FlagSet, parseArgs (pre ++ ["--config"]).length (pre ++ ["--config"]) f
      = some (.error (.needsArgument "--config")) := by
    intro f
    rw [List.length_append, parseArgs_nonFlag_append pre hpre]
    exact parseArgs_long_missing 0 _
  have hshort : ∀ f : FlagSet, parseArgs (pre ++ ["-c"]).length (pre ++ ["-c"]) f
      = some (.error (.needsArgumentShort 'c' "c")) := by
    intro f
    rw [List.length_append, parseArgs_nonFlag_append pre hpre]
    exact parseArgs_short_missing 0 _
  refine ⟨?_, by decide, ?_, by decide⟩
  · unfold extractConfigPath FlagSet.Parse
    simp only [hlong]
  · unfold extractConfigPath FlagSet.Parse
    simp only [hshort]

/-- Witness of C3 (amended): the sequence `a b --config` of the test. -/
theorem extractConfigPath_missing_value_witness :
    (∀ t ∈ ["a", "b"], isNonFlag t = true)
      ∧ extractConfigPath ["a", "b", "--config"]
        = some (.error (.needsArgument "--config")) :=
  ⟨by decide, (extractConfigPath_missing_value ["a", "b"] (by decide)).1⟩

/-- C4: without a config flag the path is the documented default
`.circleci/config.yml`: for the empty sequence with no argument left, and for
every sequence of tokens that do not begin with a dash with all of them left
as `args`. -/
theorem extractConfigPath_default (args : List String)
    (hargs : ∀ t ∈ args, t.data.head? ≠ some '-') :
    DefaultConfigPath = ".circleci/config.yml"
      ∧ extractConfigPath [] = some (.ok { args := [], configPath := DefaultConfigPath })
      ∧ extractConfigPath args
        = some (.ok { args := args, configPath := DefaultConfigPath }) := by
  refine ⟨rfl, by decide, ?_⟩
  have hnf : ∀ t ∈ args, isNonFlag t = true := fun t ht => isNonFlag_of_head t (hargs t ht)
  have key : ∀ f : FlagSet, parseArgs args.length args f
      = some (.ok { f with args := f.args ++ args }) :=
    fun f => parseArgs_all_nonFlag args hnf _ (le_refl _) f
  unfold extractConfigPath FlagSet.Parse
  simp only [key]
  simp

/-- Witness of C4: the sequence `a b`. -/
theorem extractConfigPath_default_witness :
    (∀ t ∈ ["a", "b"], t.data.head? ≠ some '-')
      ∧ extractConfigPath ["a", "b"]
        = some (.ok { args := ["a", "b"], configPath := ".circleci/config.yml" }) :=
  ⟨by decide, (extractConfigPath_default ["a", "b"] (by decide)).2.2⟩

/-! ## The claims on the launcher -/

/-- C9: when `--help` or `-h` is among the arguments, at any position,
`Execute` returns what the `Help` callback returns and leaves the host as
`Help` left it: no step of the pipeline has run. -/
theorem Execute_help (opts : BuildOptions) (h : Host)
    (hhelp : "--help" ∈ opts.Args ∨ "-h" ∈ opts.Args) :
    Execute opts h = (.returned (opts.Help h).1, (opts.Help h).2) := by
  unfold Execute
  rw [if_pos ((helpRequested_iff opts.Args).2 hhelp)]

/-- Witness of C9: `--help` after an unknown flag. -/
theorem Execute_help_witness :
    ("--help" ∈ ["--job", "--help"] ∨ "-h" ∈ ["--job", "--help"])
      ∧ (Execute (exampleOptions ["--job", "--help"]) (exampleHost .missing "")).1
        = .returned none
      ∧ (Execute (exampleOptions ["--job", "--help"]) (exampleHost .missing "")).2.trace = [] :=
  ⟨by decide,
    congrArg Prod.fst (Execute_help (exampleOptions ["--job", "--help"])
      (exampleHost .missing "") (by decide)),
    congrArg (fun r => r.2.trace) (Execute_help (exampleOptions ["--job", "--help"])
      (exampleHost .missing "") (by decide))⟩

/-- C10: when `Execute` gets as far as the container runtime, with working
directory `pwd`, temporary file `name`, image reference `image` and processed
arguments `pa`, its last action is the `syscall.Exec` of the runtime with the
argument vector below: `pwd` is mounted at the same path, `--workdir` is
`pwd`, and the vector ends with the image, `circleci build --config
/tmp/local_build_config.yml` and then the arguments `pa.args` as they are. -/
theorem Execute_arguments (opts : BuildOptions) (h : Host) (pa : processedArgs)
    (resp : ConfigResponse) (pwd path name image : String)
    (hhelp : helpRequested opts.Args = false)
    (hargs : extractConfigPath opts.Args = some (.ok pa))
    (hq : h.env.configQuery opts.Cfg pa.configPath = .ok resp) (hvalid : resp.Valid = true)
    (hwd : h.env.getwd = .ok pwd)
    (hlook : h.env.lookPathDocker = .ok path) (hver : h.env.dockerVersionOk = true)
    (htmp : h.env.tempFile = .ok name) (hwr : h.env.writeStringErr = none)
    (himg : (picardImage (beforeImage h pa.configPath name resp.OutputYaml)).1 = .ok image)
    (hdbg : opts.Cfg.Debug = true → h.env.stderrErr = none) :
    (Execute opts h).2.trace.getLast? = some (.exec path
      (["docker", "run", "--interactive", "--tty", "--rm",
        "--volume", "/var/run/docker.sock:/var/run/docker.sock",
        "--volume", name ++ ":" ++ "/tmp/local_build_config.yml",
        "--volume", pwd ++ ":" ++ pwd,
        "--volume", h.env.circleCiDir ++ ":/root/.circleci",
        "--workdir", pwd,
        image, "circleci", "build", "--config", "/tmp/local_build_config.yml"] ++ pa.args)
      h.env.environ) := by
  have henv := picardImage_env (beforeImage h pa.configPath name resp.OutputYaml)
  rcases hpi : picardImage (beforeImage h pa.configPath name resp.OutputYaml) with ⟨r, h5⟩
  rw [hpi] at himg henv
  simp only at himg henv
  subst himg
  have henv2 : h5.env = h.env := by rw [henv]; rfl
  have hens : ensureDockerIsAvailable (h.log (.configQuery pa.configPath))
      = (none, (h.log (.configQuery pa.configPath)).log .dockerVersion) :=
    ensure_ok _ path hlook hver
  unfold Execute
  simp only [hhelp, hargs, hq, hvalid, hwd, htmp, hwr, hens]
  simp only [beforeImage] at hpi
  simp only [Bool.false_eq_true, if_false, Bool.not_true, hpi]
  unfold launch
  rw [henv2]
  by_cases hd : opts.Cfg.Debug = true
  · simp only [hd, if_true, hdbg hd, hlook]
    cases h.env.execErr <;> simp [dockerArguments, configPathInsideContainer]
  · simp only [hd, hlook]
    cases h.env.execErr <;> simp [dockerArguments, configPathInsideContainer]

/-- Witness of C10: no config flag, the cache holds `sha256:abc`, the config
is valid. -/
theorem Execute_arguments_witness :
    (Execute (exampleOptions ["job"])
        (exampleHost (.content "\x7b\"LatestSha256\":\"sha256:abc\"\x7d") "")).2.trace.getLast?
      = some (.exec "/usr/bin/docker"
          ["docker", "run", "--interactive", "--tty", "--rm",
            "--volume", "/var/run/docker.sock:/var/run/docker.sock",
            "--volume", "/tmp/42-config.yml:/tmp/local_build_config.yml",
            "--volume", "/work:/work",
            "--volume", "/home/dev/.circleci:/root/.circleci",
            "--workdir", "/work",
            "circleci/picard@sha256:abc", "circleci", "build", "--config",
            "/tmp/local_build_config.yml", "job"]
          ["HOME=/home/dev"]) :=
  Execute_arguments (exampleOptions ["job"])
    (exampleHost (.content "\x7b\"LatestSha256\":\"sha256:abc\"\x7d") "")
    { args := ["job"], configPath := DefaultConfigPath }
    { Valid := true, OutputYaml := "version: 2", Errors := [] }
    "/work" "/usr/bin/docker" "/tmp/42-config.yml" "circleci/picard@sha256:abc"
    (by decide) (by decide) rfl rfl rfl rfl rfl rfl rfl (by decide) (fun _ => rfl)

/-! ## The claims on the digest cache and the resolver -/

/-- C5 (as stated, refuted): for the Go string `D` of the one byte 0xFF,
which is not valid UTF-8, `storeBuildAgentSha D` succeeds and writes the
record with the escape of U+FFFD, and the `loadCurrentBuildAgentSha` that
follows returns the text U+FFFD, whose bytes 0xEF 0xBF 0xBD are not `D`. -/
theorem store_load_invalid_utf8 :
    (storeBuildAgentSha [0xff] (exampleHost .missing "")).1 = none
      ∧ (storeBuildAgentSha [0xff] (exampleHost .missing "")).2.settingsFile
        = .content "\x7b\"LatestSha256\":\"\\ufffd\"\x7d"
      ∧ (loadCurrentBuildAgentSha (storeBuildAgentSha [0xff] (exampleHost .missing "")).2).1
        = .ok ⟨[Char.ofNat 0xfffd]⟩
      ∧ utf8Bytes ⟨[Char.ofNat 0xfffd]⟩ = [0xef, 0xbf, 0xbd]
      ∧ utf8Bytes ⟨[Char.ofNat 0xfffd]⟩ ≠ [0xff] := by
  decide

/-- C5 (amended): for every digest `D` that is valid UTF-8, that is the bytes
of a text, when `storeBuildAgentSha` of it succeeds, the settings file holds
the JSON record of `D`, that record decodes to `D` without error, and the
`loadCurrentBuildAgentSha` that follows returns exactly `D`, with no action. -/
theorem store_load_roundtrip (D : String) (h : Host)
    (hs : (storeBuildAgentSha (utf8Bytes D) h).1 = none) :
    loadCurrentBuildAgentSha (storeBuildAgentSha (utf8Bytes D) h).2
        = (.ok D, (storeBuildAgentSha (utf8Bytes D) h).2)
      ∧ (storeBuildAgentSha (utf8Bytes D) h).2.settingsFile
        = .content (marshalRecord (utf8Bytes D))
      ∧ unmarshalSettings (marshalRecord (utf8Bytes D)) { LatestSha256 := "" }
        = ({ LatestSha256 := D }, none) :=
  ⟨load_of_content _ D (store_ok _ h hs), store_ok _ h hs,
    unmarshalSettings_marshalSettings { LatestSha256 := D } _⟩

/-- Witness of C5 (amended): the digest `deipnosophist` of the test. -/
theorem store_load_roundtrip_witness :
    (storeBuildAgentSha (utf8Bytes "deipnosophist") (exampleHost .missing "")).1 = none
      ∧ (loadCurrentBuildAgentSha
          (storeBuildAgentSha (utf8Bytes "deipnosophist") (exampleHost .missing "")).2).1
        = .ok "deipnosophist" :=
  ⟨by decide,
    congrArg Prod.fst
      (store_load_roundtrip "deipnosophist" (exampleHost .missing "") (by decide)).1⟩

/-- C6: `picardImage` refreshes only on a cache miss.  When the cache holds a
digest `D` that is not empty, the result is `circleci/picard@D` with no
refresh, no pull and the settings file as it was.  When the cache gives the
empty digest, `findLatestPicardSha` is entered exactly once and at most one
pull runs; and when that call succeeds, with the digest `d`, one pull ran, the
result is `circleci/picard@d`, the settings file holds the record of `d`, and
a second `picardImage` returns the same reference with no refresh and no pull. -/
theorem picardImage_refresh (h : Host) :
    (∀ D, D ≠ "" → (loadCurrentBuildAgentSha h).1 = .ok D →
        (picardImage h).1 = .ok ("circleci/picard@" ++ D)
          ∧ refreshes (picardImage h).2 = refreshes h
          ∧ pulls (picardImage h).2 = pulls h
          ∧ (picardImage h).2.settingsFile = h.settingsFile)
      ∧ ((loadCurrentBuildAgentSha h).1 = .ok "" →
          refreshes (picardImage h).2 = refreshes h + 1
            ∧ pulls (picardImage h).2 ≤ pulls h + 1
            ∧ ∀ image, (picardImage h).1 = .ok image →
                ∃ d, d ≠ "" ∧ image = "circleci/picard@" ++ d
                  ∧ pulls (picardImage h).2 = pulls h + 1
                  ∧ (picardImage h).2.settingsFile
                    = .content (marshalSettings { LatestSha256 := d })
                  ∧ (loadCurrentBuildAgentSha (picardImage h).2).1 = .ok d
                  ∧ (picardImage (picardImage h).2).1 = .ok image
                  ∧ refreshes (picardImage (picardImage h).2).2
                    = refreshes (picardImage h).2
                  ∧ pulls (picardImage (picardImage h).2).2 = pulls (picardImage h).2) := by
  constructor
  · intro D hD hl
    rw [picardImage_hit h D hD hl]
    have hc := log_stdout_counts h ("Docker image digest: " ++ D ++ "\n")
    exact ⟨rfl, hc.1, hc.2.1, rfl⟩
  · intro hl
    have hb := beforeRefresh_counts h
    have hf := find_frame (beforeRefresh h)
    have hok := find_ok (beforeRefresh h)
    rw [picardImage_miss h hl]
    rcases hfd : findLatestPicardSha (beforeRefresh h) with ⟨r, h3⟩
    rw [hfd] at hf hok
    simp only at hf hok
    cases r with
    | fail e =>
      refine ⟨by rw [hf.2.1, hb.2.2.1], by rw [← hb.2.2.2.1]; exact hf.2.2, ?_⟩
      intro image himg
      simp at himg
    | panicked v =>
      refine ⟨by rw [hf.2.1, hb.2.2.1], by rw [← hb.2.2.2.1]; exact hf.2.2, ?_⟩
      intro image himg
      simp at himg
    | ok d =>
      have hc := log_stdout_counts h3 ("Docker image digest: " ++ d ++ "\n")
      obtain ⟨_, hne, hfile, hp⟩ := hok d rfl
      have hfile2 : (h3.log (digestLine d)).settingsFile
          = .content (marshalSettings { LatestSha256 := d }) := hfile
      have hload := load_of_content (h3.log (digestLine d)) d hfile2
      have hhit := picardImage_hit (h3.log (digestLine d)) d hne (congrArg Prod.fst hload)
      have hc2 := log_stdout_counts (h3.log (digestLine d))
        ("Docker image digest: " ++ d ++ "\n")
      refine ⟨?_, ?_, ?_⟩
      · show refreshes (h3.log (digestLine d)) = _
        rw [digestLine, hc.1, hf.2.1, hb.2.2.1]
      · show pulls (h3.log (digestLine d)) ≤ _
        rw [digestLine, hc.2.1, ← hb.2.2.2.1]
        exact hf.2.2
      · intro image himg
        simp only [Result.ok.injEq] at himg
        refine ⟨d, hne, himg.symm, ?_, hfile2, congrArg Prod.fst hload, ?_, ?_, ?_⟩
        · show pulls (h3.log (digestLine d)) = _
          rw [digestLine, hc.2.1, hp, hb.2.2.2.1]
        · show (picardImage (h3.log (digestLine d))).1 = _
          rw [hhit, himg]
        · show refreshes (picardImage (h3.log (digestLine d))).2 = _
          rw [hhit]
          exact hc2.1
        · show pulls (picardImage (h3.log (digestLine d))).2 = _
          rw [hhit]
          exact hc2.2.1

/-- Witness of C6: a cache that holds `deipnosophist` (no refresh), and a
missing cache with a pull that prints a digest (one refresh). -/
theorem picardImage_refresh_witness :
    ((loadCurrentBuildAgentSha
        (exampleHost (.content "\x7b\"LatestSha256\":\"deipnosophist\"\x7d") "")).1
        = .ok "deipnosophist"
      ∧ (picardImage (exampleHost (.content "\x7b\"LatestSha256\":\"deipnosophist\"\x7d") "")).1
        = .ok "circleci/picard@deipnosophist")
      ∧ ((loadCurrentBuildAgentSha (exampleHost .missing "Digest: sha256:0123abcdef\n")).1
        = .ok ""
      ∧ refreshes (picardImage (exampleHost .missing "Digest: sha256:0123abcdef\n")).2 = 1) :=
  ⟨⟨by decide,
      ((picardImage_refresh
        (exampleHost (.content "\x7b\"LatestSha256\":\"deipnosophist\"\x7d") "")).1
          "deipnosophist" (by decide) (by decide)).1⟩,
    ⟨by decide,
      ((picardImage_refresh (exampleHost .missing "Digest: sha256:0123abcdef\n")).2
        (by decide)).1⟩⟩

/-- C7 (as stated, refuted): a pull that exits with an error prints an
output without a digest; `findLatestPicardSha` then fails with the wrapped
pull error, which is not the digest-not-found error. -/
theorem findLatestPicardSha_failed_pull :
    ¬ hasDigest (failedPullHost "Error response from daemon: denied").env.pullOutput.data
      ∧ (findLatestPicardSha (failedPullHost "Error response from daemon: denied")).1
        = .fail (.wrap (.external "exit status 1") "failed to pull latest docker image")
      ∧ (findLatestPicardSha (failedPullHost "Error response from daemon: denied")).1
        ≠ .fail (.text "failed to parse sha256 from docker pull output") :=
  ⟨fun hd => findSha_of_hasDigest _ hd (by decide), by decide, by decide⟩

/-- C7 (amended): for every pull output without `sha256:` followed by a
lowercase hexadecimal digit, `findLatestPicardSha` fails, does not enter
`storeBuildAgentSha` and leaves the settings file as it was; when docker is
available and the pull exits without error, the failure is
`failed to parse sha256 from docker pull output`. -/
theorem findLatestPicardSha_without_digest (h : Host)
    (hno : ¬ hasDigest h.env.pullOutput.data) :
    (∃ e, (findLatestPicardSha h).1 = .fail e)
      ∧ stores (findLatestPicardSha h).2 = stores h
      ∧ (findLatestPicardSha h).2.settingsFile = h.settingsFile
      ∧ (∀ path, h.env.lookPathDocker = .ok path → h.env.dockerVersionOk = true →
          h.env.pullErr = none →
          (findLatestPicardSha h).1
            = .fail (.text "failed to parse sha256 from docker pull output")) := by
  have hnil := findSha_of_not_hasDigest _ hno
  obtain ⟨h1, h2, h3⟩ := find_no_match h hnil
  refine ⟨h1, h2, h3, ?_⟩
  intro path hl hv hp
  rw [find_no_match_error h path hl hv hp hnil]

/-- Witness of C7 (amended): a pull that prints no digest. -/
theorem findLatestPicardSha_without_digest_witness :
    ¬ hasDigest (exampleHost .missing "Status: sha256:XYZ").env.pullOutput.data
      ∧ (findLatestPicardSha (exampleHost .missing "Status: sha256:XYZ")).1
        = .fail (.text "failed to parse sha256 from docker pull output") :=
  ⟨fun hd => findSha_of_hasDigest _ hd (by decide),
    (findLatestPicardSha_without_digest (exampleHost .missing "Status: sha256:XYZ")
      (fun hd => findSha_of_hasDigest _ hd (by decide))).2.2.2
      "/usr/bin/docker" rfl rfl rfl⟩

/-- C8 (as stated, refuted): with the cached digest `a b` the call succeeds
and the reference `circleci/picard@a b` holds a space. -/
theorem picardImage_cached_space :
    (picardImage (exampleHost (.content "\x7b\"LatestSha256\":\"a b\"\x7d") "")).1
        = .ok "circleci/picard@a b"
      ∧ ' ' ∈ "circleci/picard@a b".data ∧ isSpace ' ' = true := by
  decide

/-- C8 (amended): whenever `picardImage` succeeds the reference is
`circleci/picard@` followed by a digest that is not empty: the cached digest,
or, after a refresh, the first `sha256:` match of the pull output.  The
reference holds no white space when the digest holds none, and so it holds
none after every refresh. -/
theorem picardImage_reference (h : Host) (image : String)
    (hok : (picardImage h).1 = .ok image) :
    ∃ d, d ≠ "" ∧ image = "circleci/picard@" ++ d
      ∧ ((loadCurrentBuildAgentSha h).1 = .ok d
        ∨ ((loadCurrentBuildAgentSha h).1 = .ok ""
          ∧ d = ⟨findSha h.env.pullOutput.data⟩
          ∧ ∀ c ∈ image.data, isSpace c = false))
      ∧ ((∀ c ∈ d.data, isSpace c = false) → ∀ c ∈ image.data, isSpace c = false) := by
  have hrepo : ∀ c ∈ "circleci/picard@".data, isSpace c = false := by decide
  have hclean : ∀ d : String, (∀ c ∈ d.data, isSpace c = false) →
      ∀ c ∈ ("circleci/picard@" ++ d).data, isSpace c = false := by
    intro d hd c hc
    rw [String.data_append, List.mem_append] at hc
    rcases hc with hc | hc
    · exact hrepo c hc
    · exact hd c hc
  rcases hl : (loadCurrentBuildAgentSha h).1 with sha | e | v
  · by_cases hs : sha = ""
    · subst hs
      rw [picardImage_miss h hl] at hok
      have hfo := find_ok (beforeRefresh h)
      rcases hfd : findLatestPicardSha (beforeRefresh h) with ⟨r, h3⟩
      rw [hfd] at hok hfo
      cases r with
      | fail e => simp at hok
      | panicked v => simp at hok
      | ok d =>
        simp only [Result.ok.injEq] at hok
        obtain ⟨hd, hne, _, _⟩ := hfo d rfl
        rw [(beforeRefresh_counts h).1] at hd
        have hdc : ∀ c ∈ d.data, isSpace c = false := by
          intro c hc
          rw [hd] at hc
          exact isSpace_of_sha_char c (findSha_chars _ c hc)
        refine ⟨d, hne, hok.symm, Or.inr ⟨rfl, hd, ?_⟩, ?_⟩
        · rw [← hok]; exact hclean d hdc
        · intro _; rw [← hok]; exact hclean d hdc
    · rw [picardImage_hit h sha hs hl] at hok
      simp only [Result.ok.injEq] at hok
      refine ⟨sha, hs, hok.symm, Or.inl rfl, ?_⟩
      intro hd
      rw [← hok]
      exact hclean sha hd
  · exact absurd hl (load_no_fail h e)
  · exfalso
    unfold picardImage at hok
    rcases hlh : loadCurrentBuildAgentSha h with ⟨r, h1⟩
    rw [hlh] at hl hok
    simp only at hl
    subst hl
    simp at hok

/-- Witness of C8 (amended): a missing cache and a pull that prints a digest. -/
theorem picardImage_reference_witness :
    (picardImage (exampleHost .missing "Digest: sha256:0123abcdef\n")).1
        = .ok "circleci/picard@sha256:0123abcdef"
      ∧ ∃ d, d ≠ "" ∧ "circleci/picard@sha256:0123abcdef" = "circleci/picard@" ++ d :=
  ⟨by decide,
    (picardImage_reference (exampleHost .missing "Digest: sha256:0123abcdef\n")
      "circleci/picard@sha256:0123abcdef" (by decide)).imp fun _ hd => ⟨hd.1, hd.2.1⟩⟩

end CircleCI
